import Mathlib

/-!
The HTTP front end of `main.go` (chatgpt-clone-ollama)

A shallow embedding of `src/main.go` (package `main`) and of the parts of the Go
standard library and of `chi` that decide its behaviour.

* Go strings are byte sequences (`GoString`); `unicode/utf8` is embedded on them
  (`decodeRune`, `encodeRune`, `utf8Valid`).
* `encoding/json`, encoding: `appendString` with HTML escaping on, as
  `json.NewEncoder` has it (the short escapes for backspace and form feed are
  those of Go 1.22; earlier releases write `\u0008` and `\u000c`, which read
  back as the same bytes), the struct encoding and `Encoder.Encode`.
* `encoding/json`, decoding: `Decoder.Decode` reads the first JSON value of the
  body (`readValue`) and stores it into `Prompt` or `PromptResponse`
  (`unmarshalStruct`): keys select fields exactly or case-folded, `null` is a
  no-op, a missing field is not an error.
* `net/http`: the `ResponseWriter` (status 200 implied by the first `Write`) and
  `http.Error`.
* `chi` (`github.com/go-chi/chi`): the route table of `setupRouter` and the
  dispatch of `routeHTTP`, on the URL's `RawPath` when set, else on its `Path`.
* The inference backend (`ollama.New`, `llms.GenerateFromSinglePrompt`), the
  files and the template engine are parameters: the theorems quantify over them.
* `log.Fatal` ends the process: a handler's `Outcome` holds how it ended, and the
  process is a step relation (`step`) over what happens to it.

The definitions come first, then lemmas, then the claims `C1` to `C9`.
-/

namespace ChatClone

/-! ## Go strings and `unicode/utf8` -/

/-- A Go `string` / `[]byte`: a sequence of bytes (each below 256). -/
abbrev GoString := List Nat

/-- The bytes of an ASCII literal. -/
def ascii (s : String) : GoString := s.toList.map Char.toNat

/-- Constant `utf8.RuneError` (U+FFFD). -/
def RuneError : Nat := 0xFFFD

/-- Accept range of the second byte, by first byte (`first` / `acceptRanges` of
`unicode/utf8`): lower bound. -/
def acceptLo (p0 : Nat) : Nat :=
  if p0 = 0xE0 then 0xA0 else if p0 = 0xF0 then 0x90 else 0x80

/-- Accept range of the second byte, by first byte: upper bound. -/
def acceptHi (p0 : Nat) : Nat :=
  if p0 = 0xED then 0x9F else if p0 = 0xF4 then 0x8F else 0xBF

/-- Function `utf8.DecodeRune`: the first rune of `p` and its width in bytes;
`(RuneError, 1)` on an invalid encoding, `(RuneError, 0)` on empty input. -/
def decodeRune : GoString → Nat × Nat
  | [] => (RuneError, 0)
  | p0 :: rest =>
    if p0 < 0x80 then (p0, 1)
    else if p0 < 0xC2 then (RuneError, 1)
    else if 0xF5 ≤ p0 then (RuneError, 1)
    else
      match rest with
      | [] => (RuneError, 1)
      | b1 :: rest1 =>
        if b1 < acceptLo p0 ∨ acceptHi p0 < b1 then (RuneError, 1)
        else if p0 < 0xE0 then ((p0 % 0x20) * 0x40 + b1 % 0x40, 2)
        else
          match rest1 with
          | [] => (RuneError, 1)
          | b2 :: rest2 =>
            if b2 < 0x80 ∨ 0xBF < b2 then (RuneError, 1)
            else if p0 < 0xF0 then
              ((p0 % 0x10) * 0x1000 + (b1 % 0x40) * 0x40 + b2 % 0x40, 3)
            else
              match rest2 with
              | [] => (RuneError, 1)
              | b3 :: _ =>
                if b3 < 0x80 ∨ 0xBF < b3 then (RuneError, 1)
                else ((p0 % 0x08) * 0x40000 + (b1 % 0x40) * 0x1000
                        + (b2 % 0x40) * 0x40 + b3 % 0x40, 4)

/-- Function `utf8.EncodeRune` / `utf8.AppendRune`: the UTF-8 bytes of `r`;
surrogates and values above U+10FFFF are written as U+FFFD. -/
def encodeRune (r : Nat) : GoString :=
  if r ≤ 0x7F then [r]
  else if r ≤ 0x7FF then [0xC0 + r / 0x40, 0x80 + r % 0x40]
  else if 0x10FFFF < r ∨ (0xD800 ≤ r ∧ r ≤ 0xDFFF) then [0xEF, 0xBF, 0xBD]
  else if r ≤ 0xFFFF then
    [0xE0 + r / 0x1000, 0x80 + (r / 0x40) % 0x40, 0x80 + r % 0x40]
  else
    [0xF0 + r / 0x40000, 0x80 + (r / 0x1000) % 0x40, 0x80 + (r / 0x40) % 0x40,
      0x80 + r % 0x40]

/-- Loop of `utf8.Valid`: every rune of the input decodes without error. -/
def validLoop : Nat → GoString → Bool
  | 0, s => s.isEmpty
  | _ + 1, [] => true
  | fuel + 1, c :: rest =>
    if c < 0x80 then validLoop fuel rest
    else if (decodeRune (c :: rest)).2 = 1 then false
    else validLoop fuel ((c :: rest).drop (decodeRune (c :: rest)).2)

/-- Function `utf8.ValidString`. -/
def utf8Valid (s : GoString) : Bool := validLoop s.length s

/-- Loop of `coerceUTF8`. -/
def coerceLoop : Nat → GoString → GoString
  | 0, _ => []
  | _ + 1, [] => []
  | fuel + 1, c :: rest =>
    if c < 0x80 then c :: coerceLoop fuel rest
    else if (decodeRune (c :: rest)).2 = 1 then [0xEF, 0xBF, 0xBD] ++ coerceLoop fuel rest
    else
      (c :: rest).take (decodeRune (c :: rest)).2
        ++ coerceLoop fuel ((c :: rest).drop (decodeRune (c :: rest)).2)

/-- The string with every byte that is not part of a valid UTF-8 encoding
replaced by U+FFFD, as the conversion `string([]rune(s))` does. -/
def coerceUTF8 (s : GoString) : GoString := coerceLoop s.length s

/-! ## `encoding/json`: encoding -/

/-- Table `hex` of `encoding/json`: `"0123456789abcdef"`. -/
def hexDigit (n : Nat) : Nat := if n < 10 then 0x30 + n else 0x61 + (n - 10)

/-- Table `htmlSafeSet`: the ASCII bytes written without escaping when HTML
escaping is on: 0x20..0x7F except `"`, `&`, `<`, `>` and the backslash. -/
def htmlSafeSet (b : Nat) : Bool :=
  decide (0x20 ≤ b) && decide (b < 0x80) && !(b = 0x22) && !(b = 0x26) && !(b = 0x3C)
    && !(b = 0x3E) && !(b = 0x5C)

/-- The escape written by `appendString` for an ASCII byte outside `htmlSafeSet`. -/
def escapeByte (b : Nat) : GoString :=
  if b = 0x5C ∨ b = 0x22 then [0x5C, b]
  else if b = 0x08 then [0x5C, 0x62]
  else if b = 0x0C then [0x5C, 0x66]
  else if b = 0x0A then [0x5C, 0x6E]
  else if b = 0x0D then [0x5C, 0x72]
  else if b = 0x09 then [0x5C, 0x74]
  else [0x5C, 0x75, 0x30, 0x30, hexDigit (b / 16), hexDigit (b % 16)]

/-- The loop of `appendString` (between the two quotes), `escapeHTML = true`. -/
def appendStringLoop : Nat → GoString → GoString
  | 0, _ => []
  | _ + 1, [] => []
  | fuel + 1, b :: rest =>
    if b < 0x80 then
      if htmlSafeSet b then b :: appendStringLoop fuel rest
      else escapeByte b ++ appendStringLoop fuel rest
    else
      let src := b :: rest
      let c := (decodeRune (src.take 4)).1
      let size := (decodeRune (src.take 4)).2
      if c = RuneError ∧ size = 1 then
        [0x5C, 0x75, 0x66, 0x66, 0x66, 0x64] ++ appendStringLoop fuel (src.drop size)
      else if c = 0x2028 ∨ c = 0x2029 then
        [0x5C, 0x75, 0x32, 0x30, 0x32, hexDigit (c % 16)]
          ++ appendStringLoop fuel (src.drop size)
      else src.take size ++ appendStringLoop fuel (src.drop size)

/-- Function `appendString` of `encoding/json`: the JSON string literal of `src`. -/
def appendString (src : GoString) : GoString :=
  0x22 :: (appendStringLoop src.length src ++ [0x22])

/-- PromptResponse represents the structure for storing input from the user and
the response from the LLM. -/
structure PromptResponse where
  Input : GoString
  Response : GoString
  deriving DecidableEq, Repr

/-- Prompt represents the structure for storing input from the user. -/
structure Prompt where
  Input : GoString
  deriving DecidableEq, Repr

/-- Function `json.Marshal` on a `PromptResponse`: the fields in declaration order
under their `json` tags. -/
def marshalPromptResponse (v : PromptResponse) : GoString :=
  [0x7B] ++ appendString (ascii "input") ++ [0x3A] ++ appendString v.Input ++ [0x2C]
    ++ appendString (ascii "response") ++ [0x3A] ++ appendString v.Response ++ [0x7D]

/-- Function `json.Marshal` on a `Prompt`: the request body a client sends for the
JSON object with the one member `input`. -/
def marshalPrompt (v : Prompt) : GoString :=
  [0x7B] ++ appendString (ascii "input") ++ [0x3A] ++ appendString v.Input ++ [0x7D]

/-- Method `(*json.Encoder).Encode` on a `PromptResponse`: the JSON encoding
followed by a newline. -/
def encodePromptResponse (v : PromptResponse) : GoString :=
  marshalPromptResponse v ++ [0x0A]

/-! ## `encoding/json`: decoding

`Decoder.Decode` reads the first JSON value of the stream (`readValue`, driven by
the scanner of `scanner.go`) and stores it into the target (`decodeState`).  The
scanner's language is embedded as a recursive-descent reader that returns the
value read and the unread rest of the input; what follows the first value is
not looked at, as in `readValue`. -/

/-- The errors `Decoder.Decode` returns. -/
inductive DecodeError
  /-- Value `io.EOF`: the body holds no value at all. -/
  | eof
  /-- Value `io.ErrUnexpectedEOF`: the body ends inside a value. -/
  | unexpectedEOF
  /-- Type `*json.SyntaxError` as `(*scanner).error` makes it: the offending byte
  and the context. -/
  | syntaxError (c : Nat) (context : String)
  /-- Type `*json.UnmarshalTypeError`: JSON value kind, struct, field, Go type. -/
  | unmarshalType (value struct field type : GoString)
  /-- The panic `phasePanicMsg` (a scanned string literal that does not unquote;
  see `readValue_ne_outOfFuel`: there is none). -/
  | phase
  /-- Not a Go error: the reader's recursion budget ran out (see
  `readValue_ne_outOfFuel`: it never does). -/
  | outOfFuel
  deriving DecidableEq, Repr

/-- The errors that `Decode` can return in Go: all but the panic and the budget
error (see `readValue_ne_outOfFuel`). -/
def DecodeError.real : DecodeError → Bool
  | .phase => false
  | .outOfFuel => false
  | _ => true

/-- Function `quoteChar` of `scanner.go`: `c` as a quoted character literal
(`strconv.Quote` of the one-rune string, in single quotes). -/
def quoteChar (c : Nat) : GoString :=
  if c = 0x27 then [0x27, 0x5C, 0x27, 0x27]
  else if c = 0x22 then [0x27, 0x22, 0x27]
  else if c = 0x5C then [0x27, 0x5C, 0x5C, 0x27]
  else if (0x20 ≤ c ∧ c < 0x7F) ∨ (0xA1 ≤ c ∧ c ≤ 0xFF ∧ c ≠ 0xAD) then
    [0x27] ++ encodeRune c ++ [0x27]
  else if c = 0x07 then [0x27, 0x5C, 0x61, 0x27]
  else if c = 0x08 then [0x27, 0x5C, 0x62, 0x27]
  else if c = 0x0C then [0x27, 0x5C, 0x66, 0x27]
  else if c = 0x0A then [0x27, 0x5C, 0x6E, 0x27]
  else if c = 0x0D then [0x27, 0x5C, 0x72, 0x27]
  else if c = 0x09 then [0x27, 0x5C, 0x74, 0x27]
  else if c = 0x0B then [0x27, 0x5C, 0x76, 0x27]
  else if c < 0x20 ∨ c = 0x7F then
    [0x27, 0x5C, 0x78, hexDigit (c / 16), hexDigit (c % 16), 0x27]
  else [0x27, 0x5C, 0x75, 0x30, 0x30, hexDigit (c / 16), hexDigit (c % 16), 0x27]

/-- Method `Error()` of the decoding errors. -/
def DecodeError.Error : DecodeError → GoString
  | .eof => ascii "EOF"
  | .unexpectedEOF => ascii "unexpected EOF"
  | .syntaxError c context =>
    ascii "invalid character " ++ quoteChar c ++ ascii " " ++ ascii context
  | .unmarshalType value struct field type =>
    if struct ≠ [] ∨ field ≠ [] then
      ascii "json: cannot unmarshal " ++ value ++ ascii " into Go struct field "
        ++ struct ++ ascii "." ++ field ++ ascii " of type " ++ type
    else
      ascii "json: cannot unmarshal " ++ value ++ ascii " into Go value of type " ++ type
  | .phase => ascii "JSON decoder out of sync - data changing underfoot?"
  | .outOfFuel => ascii "out of fuel"

/-- Method `(*scanner).error`: the syntax error for byte `c` in `context`. -/
def scanError (c : Nat) (context : String) : DecodeError :=
  .syntaxError c context

/-- Function `isSpace` of `scanner.go`. -/
def isSpace (c : Nat) : Bool :=
  decide (c ≤ 0x20) && (c = 0x20 || c = 0x09 || c = 0x0D || c = 0x0A)

/-- Skip JSON white space (`scanSkipSpace`). -/
def skipSpace : GoString → GoString
  | [] => []
  | c :: rest => if isSpace c then skipSpace rest else c :: rest

/-- Is `c` an ASCII digit. -/
def isDigit (c : Nat) : Bool := decide (0x30 ≤ c) && decide (c ≤ 0x39)

/-- Is `c` a hexadecimal digit (`stateInStringEscU`). -/
def isHex (c : Nat) : Bool :=
  (decide (0x30 ≤ c) && decide (c ≤ 0x39)) || (decide (0x61 ≤ c) && decide (c ≤ 0x66))
    || (decide (0x41 ≤ c) && decide (c ≤ 0x46))

/-- The escapes `stateInStringEsc` accepts after a backslash, `u` apart. -/
def isSimpleEscape (c : Nat) : Bool :=
  c = 0x62 || c = 0x66 || c = 0x6E || c = 0x72 || c = 0x74 || c = 0x5C || c = 0x2F
    || c = 0x22

/-- The scanner's states inside a string literal (`stateInString`,
`stateInStringEsc`, `stateInStringEscU`, `stateInStringEscU1`,
`stateInStringEscU12`, `stateInStringEscU123`). -/
inductive StringState
  | inString
  | inStringEsc
  | inStringEscU
  | inStringEscU1
  | inStringEscU12
  | inStringEscU123
  deriving DecidableEq, Repr

/-- Put `pre` in front of the raw text of a scanned string literal. -/
def consRaw (pre : GoString) (res : Except DecodeError (GoString × GoString)) :
    Except DecodeError (GoString × GoString) :=
  match res with
  | .ok (raw, r) => .ok (pre ++ raw, r)
  | .error err => .error err

/-- The scanner inside a string literal, byte by byte from state `st`; the
result is the literal's raw text up to the closing quote and the input after
that quote. -/
def scanStringFrom : StringState → GoString → Except DecodeError (GoString × GoString)
  | _, [] => .error .unexpectedEOF
  | .inString, c :: rest =>
    if c = 0x22 then .ok ([], rest)
    else if c = 0x5C then consRaw [c] (scanStringFrom .inStringEsc rest)
    else if c < 0x20 then .error (scanError c "in string literal")
    else consRaw [c] (scanStringFrom .inString rest)
  | .inStringEsc, c :: rest =>
    if isSimpleEscape c then consRaw [c] (scanStringFrom .inString rest)
    else if c = 0x75 then consRaw [c] (scanStringFrom .inStringEscU rest)
    else .error (scanError c "in string escape code")
  | .inStringEscU, c :: rest =>
    if isHex c then consRaw [c] (scanStringFrom .inStringEscU1 rest)
    else .error (scanError c "in \\u hexadecimal character escape")
  | .inStringEscU1, c :: rest =>
    if isHex c then consRaw [c] (scanStringFrom .inStringEscU12 rest)
    else .error (scanError c "in \\u hexadecimal character escape")
  | .inStringEscU12, c :: rest =>
    if isHex c then consRaw [c] (scanStringFrom .inStringEscU123 rest)
    else .error (scanError c "in \\u hexadecimal character escape")
  | .inStringEscU123, c :: rest =>
    if isHex c then consRaw [c] (scanStringFrom .inString rest)
    else .error (scanError c "in \\u hexadecimal character escape")

/-- Read a string literal after its opening quote (scanner state
`stateInString`). -/
def scanString (s : GoString) : Except DecodeError (GoString × GoString) :=
  scanStringFrom .inString s

/-- Value of one hexadecimal digit (`getu4`). -/
def hexVal (c : Nat) : Option Nat :=
  if 0x30 ≤ c ∧ c ≤ 0x39 then some (c - 0x30)
  else if 0x61 ≤ c ∧ c ≤ 0x66 then some (c - 0x61 + 10)
  else if 0x41 ≤ c ∧ c ≤ 0x46 then some (c - 0x41 + 10)
  else none

/-- Function `getu4` of `decode.go`: the rune of a leading `\uXXXX`, if there is
one (`none` stands for Go's `-1`). -/
def getu4 : GoString → Option Nat
  | b :: u :: h1 :: h2 :: h3 :: h4 :: _ =>
    if b = 0x5C ∧ u = 0x75 then
      match hexVal h1, hexVal h2, hexVal h3, hexVal h4 with
      | some a, some b, some c, some d => some (((a * 16 + b) * 16 + c) * 16 + d)
      | _, _, _, _ => none
    else none
  | _ => none

/-- Function `utf16.IsSurrogate`. -/
def isSurrogate (r : Nat) : Bool := decide (0xD800 ≤ r) && decide (r < 0xE000)

/-- Function `utf16.DecodeRune`: the rune of a surrogate pair, U+FFFD if the two
are not a valid pair. -/
def utf16DecodeRune (r1 r2 : Nat) : Nat :=
  if 0xD800 ≤ r1 ∧ r1 < 0xDC00 ∧ 0xDC00 ≤ r2 ∧ r2 < 0xE000 then
    (r1 - 0xD800) * 0x400 + (r2 - 0xDC00) + 0x10000
  else RuneError

/-- One round of the loop of `unquoteBytes` on the raw text `c :: rest`: the bytes
written and the raw text left; an escape is replaced, invalid UTF-8 is coerced
to U+FFFD; `none` is Go's `ok = false`. -/
def unquoteStep (c : Nat) (rest : GoString) : Option (GoString × GoString) :=
  if c = 0x5C then
    match rest with
    | [] => none
    | e :: rest1 =>
      if e = 0x22 ∨ e = 0x5C ∨ e = 0x2F ∨ e = 0x27 then some ([e], rest1)
      else if e = 0x62 then some ([0x08], rest1)
      else if e = 0x66 then some ([0x0C], rest1)
      else if e = 0x6E then some ([0x0A], rest1)
      else if e = 0x72 then some ([0x0D], rest1)
      else if e = 0x74 then some ([0x09], rest1)
      else if e = 0x75 then
        match getu4 (c :: rest) with
        | none => none
        | some rr =>
          let r6 := (c :: rest).drop 6
          if isSurrogate rr then
            let dec :=
              match getu4 r6 with
              | some rr1 => utf16DecodeRune rr rr1
              | none => RuneError
            if dec ≠ RuneError then some (encodeRune dec, r6.drop 6)
            else some (encodeRune RuneError, r6)
          else some (encodeRune rr, r6)
      else none
  else if c = 0x22 ∨ c < 0x20 then none
  else if c < 0x80 then some ([c], rest)
  else
    some (encodeRune (decodeRune (c :: rest)).1, (c :: rest).drop (decodeRune (c :: rest)).2)

/-- The loop of `unquoteBytes` over the raw text of a string literal. -/
def unquoteLoop : Nat → GoString → Option GoString
  | 0, s => if s.isEmpty then some [] else none
  | _ + 1, [] => some []
  | fuel + 1, c :: rest =>
    match unquoteStep c rest with
    | none => none
    | some (out, rem) => (unquoteLoop fuel rem).map (out ++ ·)

/-- Function `unquoteBytes` on the raw text between the quotes. -/
def unquote (raw : GoString) : Option GoString := unquoteLoop raw.length raw

/-- Skip a run of digits (scanner state `state1`, `stateDot0`, `stateE0`). -/
def skipDigits : GoString → GoString
  | [] => []
  | c :: rest => if isDigit c then skipDigits rest else c :: rest

/-- Scanner states `stateE`, `stateESign`, `stateE0`: an optional exponent. -/
def scanExp (s : GoString) : Except DecodeError GoString :=
  match s with
  | [] => .ok []
  | c :: r =>
    if c = 0x65 ∨ c = 0x45 then
      match r with
      | [] => .error .unexpectedEOF
      | d :: r1 =>
        if d = 0x2B ∨ d = 0x2D then
          match r1 with
          | [] => .error .unexpectedEOF
          | d1 :: r2 =>
            if isDigit d1 then .ok (skipDigits r2)
            else .error (scanError d1 "in exponent of numeric literal")
        else if isDigit d then .ok (skipDigits r1)
        else .error (scanError d "in exponent of numeric literal")
    else .ok s

/-- Scanner states `stateDot`, `stateDot0`: an optional fraction, then `scanExp`. -/
def scanFrac (s : GoString) : Except DecodeError GoString :=
  match s with
  | [] => .ok []
  | c :: r =>
    if c = 0x2E then
      match r with
      | [] => .error .unexpectedEOF
      | d :: r1 =>
        if isDigit d then scanExp (skipDigits r1)
        else .error (scanError d "after decimal point in numeric literal")
    else scanExp s

/-- Scanner states `stateNeg`, `state0`, `state1`: a number whose first byte is
`c` (a minus sign or a digit); the result is the input after the number. -/
def scanNumber (c : Nat) (rest : GoString) : Except DecodeError GoString :=
  if c = 0x2D then
    match rest with
    | [] => .error .unexpectedEOF
    | d :: r =>
      if d = 0x30 then scanFrac r
      else if isDigit d then scanFrac (skipDigits r)
      else .error (scanError d "in numeric literal")
  else if c = 0x30 then scanFrac rest
  else scanFrac (skipDigits rest)

/-- Scanner states `stateT`..`stateNul`: the rest of the literal `name` after
its first letter. -/
def scanLiteral (name : String) : GoString → GoString → Except DecodeError GoString
  | [], s => .ok s
  | _ :: _, [] => .error .unexpectedEOF
  | e :: es, c :: r =>
    if c = e then scanLiteral name es r
    else .error (scanError c
      ("in literal " ++ name ++ " (expecting " ++ String.mk [Char.ofNat 39, Char.ofNat e, Char.ofNat 39] ++ ")"))

/-- A JSON value as the decoder sees it. -/
inductive JVal
  | null
  | bool (b : Bool)
  | number
  | string (s : GoString)
  | array (xs : List JVal)
  | object (ms : List (GoString × JVal))

/-- Constant `maxNestingDepth` of `scanner.go`. -/
def maxNestingDepth : Nat := 10000

mutual
/-- Read one JSON value (scanner state `stateBeginValue`); `depth` is the number
of enclosing arrays and objects. -/
def parseValue : Nat → Nat → GoString → Except DecodeError (JVal × GoString)
  | 0, _, _ => .error .outOfFuel
  | fuel + 1, depth, s =>
    match skipSpace s with
    | [] => .error .unexpectedEOF
    | c :: rest =>
      if c = 0x7B then
        if maxNestingDepth < depth + 1 then .error (scanError c "exceeded max depth")
        else
          match skipSpace rest with
          | [] => .error .unexpectedEOF
          | c1 :: rest1 =>
            if c1 = 0x7D then .ok (.object [], rest1)
            else
              match parseMembers fuel (depth + 1) (c1 :: rest1) with
              | .ok (ms, r) => .ok (.object ms, r)
              | .error err => .error err
      else if c = 0x5B then
        if maxNestingDepth < depth + 1 then .error (scanError c "exceeded max depth")
        else
          match skipSpace rest with
          | [] => .error .unexpectedEOF
          | c1 :: rest1 =>
            if c1 = 0x5D then .ok (.array [], rest1)
            else
              match parseElements fuel (depth + 1) (c1 :: rest1) with
              | .ok (xs, r) => .ok (.array xs, r)
              | .error err => .error err
      else if c = 0x22 then
        match scanString rest with
        | .ok (raw, r) =>
          match unquote raw with
          | some str => .ok (.string str, r)
          | none => .error .phase
        | .error err => .error err
      else if c = 0x2D ∨ isDigit c then
        match scanNumber c rest with
        | .ok r => .ok (.number, r)
        | .error err => .error err
      else if c = 0x74 then
        match scanLiteral "true" [0x72, 0x75, 0x65] rest with
        | .ok r => .ok (.bool true, r)
        | .error err => .error err
      else if c = 0x66 then
        match scanLiteral "false" [0x61, 0x6C, 0x73, 0x65] rest with
        | .ok r => .ok (.bool false, r)
        | .error err => .error err
      else if c = 0x6E then
        match scanLiteral "null" [0x75, 0x6C, 0x6C] rest with
        | .ok r => .ok (.null, r)
        | .error err => .error err
      else .error (scanError c "looking for beginning of value")
/-- Read the members of an object from a key on, up to the closing brace
(scanner states `stateBeginString`, `stateEndValue` in an object). -/
def parseMembers : Nat → Nat → GoString → Except DecodeError (List (GoString × JVal) × GoString)
  | 0, _, _ => .error .outOfFuel
  | fuel + 1, depth, s =>
    match skipSpace s with
    | [] => .error .unexpectedEOF
    | c :: rest =>
      if c ≠ 0x22 then .error (scanError c "looking for beginning of object key string")
      else
        match scanString rest with
        | .error err => .error err
        | .ok (rawKey, r1) =>
          match skipSpace r1 with
          | [] => .error .unexpectedEOF
          | c2 :: r2 =>
            if c2 ≠ 0x3A then .error (scanError c2 "after object key")
            else
              match parseValue fuel depth r2 with
              | .error err => .error err
              | .ok (v, r3) =>
                match unquote rawKey with
                | none => .error .phase
                | some key =>
                  match skipSpace r3 with
                  | [] => .error .unexpectedEOF
                  | c3 :: r4 =>
                    if c3 = 0x2C then
                      match parseMembers fuel depth r4 with
                      | .ok (ms, r5) => .ok ((key, v) :: ms, r5)
                      | .error err => .error err
                    else if c3 = 0x7D then .ok ([(key, v)], r4)
                    else .error (scanError c3 "after object key:value pair")
/-- Read the elements of an array from an element on, up to the closing bracket
(scanner state `stateEndValue` in an array). -/
def parseElements : Nat → Nat → GoString → Except DecodeError (List JVal × GoString)
  | 0, _, _ => .error .outOfFuel
  | fuel + 1, depth, s =>
    match parseValue fuel depth s with
    | .error err => .error err
    | .ok (v, r1) =>
      match skipSpace r1 with
      | [] => .error .unexpectedEOF
      | c :: r2 =>
        if c = 0x2C then
          match parseElements fuel depth r2 with
          | .ok (xs, r3) => .ok (v :: xs, r3)
          | .error err => .error err
        else if c = 0x5D then .ok ([v], r2)
        else .error (scanError c "after array element")
end

/-- Method `(*Decoder).readValue` followed by the value's decoding: the first JSON
value of the body; `io.EOF` when the body holds white space only.  The reader's
budget is twice the body's length plus two: an array costs two rounds a byte. -/
def readValue (body : GoString) : Except DecodeError JVal :=
  match skipSpace body with
  | [] => .error .eof
  | _ :: _ =>
    match parseValue (2 * body.length + 2) 0 body with
    | .ok (v, _) => .ok v
    | .error err => .error err

/-- The JSON kind named in an `UnmarshalTypeError` (`Value`). -/
def valueKind : JVal → GoString
  | .null => ascii "null"
  | .bool _ => ascii "bool"
  | .number => ascii "number"
  | .string _ => ascii "string"
  | .array _ => ascii "array"
  | .object _ => ascii "object"

/-- Function `foldRune` of `encoding/json/fold.go` as far as ASCII field names
can tell: U+017F folds to `S`, U+212A to `K`; no other rune outside ASCII has an
ASCII letter in its fold orbit, and such runes are left as they are. -/
def foldRune (r : Nat) : Nat :=
  if r = 0x17F then 0x53 else if r = 0x212A then 0x4B else r

/-- Loop of `appendFoldedName`: ASCII letters to upper case, other runes folded. -/
def foldNameLoop : Nat → GoString → GoString
  | 0, _ => []
  | _ + 1, [] => []
  | fuel + 1, c :: rest =>
    if c < 0x80 then
      (if 0x61 ≤ c ∧ c ≤ 0x7A then c - 0x20 else c) :: foldNameLoop fuel rest
    else
      encodeRune (foldRune (decodeRune (c :: rest)).1)
        ++ foldNameLoop fuel ((c :: rest).drop (decodeRune (c :: rest)).2)

/-- Function `foldName` of `encoding/json/fold.go`. -/
def foldName (name : GoString) : GoString := foldNameLoop name.length name

/-- A string field of a struct as `encoding/json` caches it: the name from the
`json` tag and the setter. -/
structure Field (α : Type) where
  name : GoString
  set : α → GoString → α

/-- The field an object key selects: an exact match first (`byExactName`), then a
case-folded one (`byFoldedName`). -/
def findField {α : Type} (fields : List (Field α)) (key : GoString) : Option (Field α) :=
  match fields.find? (fun f => decide (f.name = key)) with
  | some f => some f
  | none => fields.find? (fun f => decide (foldName f.name = foldName key))

/-- Method `(*decodeState).saveError`: the first error is kept. -/
def saveError (saved : Option DecodeError) (err : DecodeError) : Option DecodeError :=
  match saved with
  | some e => some e
  | none => some err

/-- One round of the loop of `(*decodeState).object` on a struct whose fields are
strings: a key without field is skipped, a string is stored, `null` leaves the
field alone, any other value records an `UnmarshalTypeError` and is skipped. -/
def storeMember {α : Type} (structName : GoString) (fields : List (Field α))
    (st : α × Option DecodeError) (m : GoString × JVal) : α × Option DecodeError :=
  match findField fields m.1 with
  | none => st
  | some f =>
    match m.2 with
    | .string str => (f.set st.1 str, st.2)
    | .null => st
    | v => (st.1, saveError st.2
        (.unmarshalType (valueKind v) structName f.name (ascii "string")))

/-- Method `(*decodeState).unmarshal` into a struct of string fields that starts
as `zero`: an object is stored member by member, `null` is a no-op, any other
value is an `UnmarshalTypeError` for the struct type `typeName`. -/
def unmarshalStruct {α : Type} (structName typeName : GoString) (fields : List (Field α))
    (zero : α) (v : JVal) : Except DecodeError α :=
  match v with
  | .object ms =>
    match ms.foldl (storeMember structName fields) (zero, none) with
    | (_, some err) => .error err
    | (a, none) => .ok a
  | .null => .ok zero
  | v => .error (.unmarshalType (valueKind v) [] [] typeName)

/-- Is the value stored into a string field without error: a string or `null`. -/
def storable : JVal → Bool
  | .string _ => true
  | .null => true
  | _ => false

/-- The JSON values that decoding into a struct with the string `fields`
rejects: neither an object nor `null`, or an object with a member that selects
a field and holds neither a string nor `null`. -/
def rejected {α : Type} (fields : List (Field α)) : JVal → Bool
  | .object ms => ms.any (fun m => (findField fields m.1).isSome && !storable m.2)
  | .null => false
  | _ => true

/-- The fields of `Prompt`. -/
def promptFields : List (Field Prompt) :=
  [{ name := ascii "input", set := fun p str => { p with Input := str } }]

/-- The fields of `PromptResponse`. -/
def promptResponseFields : List (Field PromptResponse) :=
  [{ name := ascii "input", set := fun p str => { p with Input := str } },
   { name := ascii "response", set := fun p str => { p with Response := str } }]

/-- The call `json.NewDecoder(r.Body).Decode(&prompt)` of `run` with
`var prompt Prompt`. -/
def decodePrompt (body : GoString) : Except DecodeError Prompt :=
  match readValue body with
  | .error err => .error err
  | .ok v =>
    unmarshalStruct (ascii "Prompt") (ascii "main.Prompt") promptFields { Input := [] } v

/-- Decoding a body into a zero `PromptResponse` (`Decoder.Decode`). -/
def decodePromptResponse (body : GoString) : Except DecodeError PromptResponse :=
  match readValue body with
  | .error err => .error err
  | .ok v =>
    unmarshalStruct (ascii "PromptResponse") (ascii "main.PromptResponse")
      promptResponseFields { Input := [], Response := [] } v

/-! ## `net/http` -/

/-- Constant `http.StatusOK`. -/
def StatusOK : Nat := 200

/-- Constant `http.StatusBadRequest`. -/
def StatusBadRequest : Nat := 400

/-- An `http.ResponseWriter`: the header map, the status written by
`WriteHeader` (if any yet), the body bytes and the number of `Write` calls. -/
structure ResponseWriter where
  header : List (GoString × GoString)
  status : Option Nat
  body : GoString
  writes : Nat
  deriving DecidableEq, Repr

/-- The writer a request starts with. -/
def ResponseWriter.fresh : ResponseWriter :=
  { header := [], status := none, body := [], writes := 0 }

/-- Method `Header().Set`. -/
def ResponseWriter.SetHeader (w : ResponseWriter) (key value : GoString) : ResponseWriter :=
  { w with header := (key, value) :: w.header.filter (fun kv => decide (kv.1 ≠ key)) }

/-- Method `WriteHeader`: the first call fixes the status, later ones are
superfluous. -/
def ResponseWriter.WriteHeader (w : ResponseWriter) (code : Nat) : ResponseWriter :=
  match w.status with
  | some _ => w
  | none => { w with status := some code }

/-- Method `Write`: writes the header with `StatusOK` if none was written, then
the bytes. -/
def ResponseWriter.Write (w : ResponseWriter) (b : GoString) : ResponseWriter :=
  let w1 := w.WriteHeader StatusOK
  { w1 with body := w1.body ++ b, writes := w1.writes + 1 }

/-- Function `http.Error`: plain-text headers, the status, the message and a
newline (`fmt.Fprintln`). -/
def httpError (w : ResponseWriter) (error : GoString) (code : Nat) : ResponseWriter :=
  (((w.SetHeader (ascii "Content-Type") (ascii "text/plain; charset=utf-8")).SetHeader
    (ascii "X-Content-Type-Options") (ascii "nosniff")).WriteHeader code).Write
      (error ++ [0x0A])

/-! ## The inference backend and the handlers -/

/-- The inference backend, a parameter of the handlers: `construct model` is the
error of `ollama.New(ollama.WithModel(model))`, if any; `complete model prompt`
is the result of `llms.GenerateFromSinglePrompt` on a client of that model. -/
structure Backend where
  construct : GoString → Option GoString
  complete : GoString → GoString → Except GoString GoString

/-- A call made to the backend. -/
inductive Call
  | construct (model : GoString)
  | complete (model prompt : GoString)
  deriving DecidableEq, Repr

/-- How a handler ends: it returns to the server, or `log.Fatal` ends the
process (`os.Exit(1)`) with a logged message. -/
inductive Exit
  | returned
  | fatal (msg : GoString)
  deriving DecidableEq, Repr

/-- What a handler did: the response writer as it left it, the backend calls in
order, and how it ended. -/
structure Outcome where
  w : ResponseWriter
  calls : List Call
  exit : Exit
  deriving DecidableEq, Repr

/-- The response the client gets: none if the process died in the handler,
otherwise the status (200 if the handler wrote none) and the body. -/
def Outcome.response (o : Outcome) : Option (Nat × GoString) :=
  match o.exit with
  | .fatal _ => none
  | .returned => some (o.w.status.getD StatusOK, o.w.body)

/-- run handles the POST request to /run, decodes the input prompt, generates a
response using an LLM, and sends back the result in JSON format. -/
def run (be : Backend) (w : ResponseWriter) (body : GoString) : Outcome :=
  match decodePrompt body with
  | .error err =>
    { w := httpError w err.Error StatusBadRequest, calls := [], exit := .returned }
  | .ok prompt =>
    match be.construct (ascii "llama3") with
    | some err =>
      { w := w, calls := [.construct (ascii "llama3")],
        exit := .fatal (ascii "Failed to initialize LLM with error: " ++ err) }
    | none =>
      match be.complete (ascii "llama3") prompt.Input with
      | .error err =>
        { w := w,
          calls := [.construct (ascii "llama3"), .complete (ascii "llama3") prompt.Input],
          exit := .fatal (ascii "LLM generation failed with error: " ++ err) }
      | .ok completion =>
        let response : PromptResponse := { Input := prompt.Input, Response := completion }
        { w := w.Write (encodePromptResponse response),
          calls := [.construct (ascii "llama3"), .complete (ascii "llama3") prompt.Input],
          exit := .returned }

/-- The healthy backend stub of the spec's examples: construction succeeds and
every completion is `reply`. -/
def stubBackend (reply : GoString) : Backend :=
  { construct := fun _ => none, complete := fun _ _ => .ok reply }

/-- The files the process can read, by path, and the template engine
(`text/template`): `render src` is the parse error of the template text `src`,
or what `Execute(w, nil)` writes for it. -/
structure Assets where
  file : GoString → Option GoString
  render : GoString → Except GoString GoString

/-- Function `template.ParseFiles` on one path followed by `Execute(w, nil)`: the
error of opening or parsing, or the text written. -/
def parseAndRender (a : Assets) (path : GoString) : Except GoString GoString :=
  match a.file path with
  | none => .error (ascii "open " ++ path ++ ascii ": no such file or directory")
  | some src => a.render src

/-- index serves the main page. -/
def index (a : Assets) (w : ResponseWriter) : Outcome :=
  match parseAndRender a (ascii "static/index.html") with
  | .error err =>
    { w := w, calls := [],
      exit := .fatal (ascii "Error parsing template with error: " ++ err) }
  | .ok page => { w := w.Write page, calls := [], exit := .returned }

/-! ## The router (`chi`) -/

/-- The methods `chi` routes (`methodMap`); a request with any other method is
answered 405. -/
def methodMap : List GoString :=
  [ascii "CONNECT", ascii "DELETE", ascii "GET", ascii "HEAD", ascii "OPTIONS",
   ascii "PATCH", ascii "POST", ascii "PUT", ascii "TRACE"]

/-- The methods a route is registered for: all of `methodMap` (`Handle`, chi's
`mALL`) or one (`Get`, `Post`). -/
inductive MethodSet
  | all
  | only (method : GoString)
  deriving DecidableEq, Repr

/-- Does the method set hold `method`. -/
def MethodSet.allows : MethodSet → GoString → Bool
  | .all, method => decide (method ∈ methodMap)
  | .only m, method => decide (method = m)

/-- The handlers `setupRouter` registers: the static file server behind
`http.StripPrefix`, `index` and `run`. -/
inductive HandlerId
  | static
  | index
  | run
  deriving DecidableEq, Repr

/-- A registered route. -/
structure Route where
  methods : MethodSet
  pattern : GoString
  handler : HandlerId
  deriving DecidableEq, Repr

/-- A `chi.Mux`: the middleware stack and the routes. -/
structure Mux where
  middlewares : List GoString
  routes : List Route
  deriving DecidableEq, Repr

/-- setupRouter initializes and returns a new chi Mux router with configured
routes and middleware. -/
def setupRouter : Mux :=
  { middlewares := [ascii "middleware.Logger"],
    routes :=
      [{ methods := .all, pattern := ascii "/static/*", handler := .static },
       { methods := .only (ascii "GET"), pattern := ascii "/", handler := .index },
       { methods := .only (ascii "POST"), pattern := ascii "/run", handler := .run }] }

/-- Does a chi pattern match a path: a pattern ending in `*` matches every path
that starts with what precedes the star, any other pattern (no parameters are
used here) matches itself only. -/
def patternMatches (pattern path : GoString) : Bool :=
  match pattern.getLast? with
  | some 0x2A => pattern.dropLast.isPrefixOf path
  | _ => decide (pattern = path)

/-- Where the router sends a request. -/
inductive RouteResult
  | handler (h : HandlerId)
  | notFound
  | methodNotAllowed
  deriving DecidableEq, Repr

/-- The path part of a request's `url.URL`: the decoded `Path`, and `RawPath`, the
path as the request spelled it when that is not the default encoding of `Path`
(empty otherwise). -/
structure URL where
  Path : GoString
  RawPath : GoString
  deriving DecidableEq, Repr

/-- The path `routeHTTP` routes on: the URL's `RawPath` when it is set, otherwise
its `Path`. -/
def routePath (u : URL) : GoString :=
  if u.RawPath ≠ [] then u.RawPath else u.Path

/-- Method `(*Mux).routeHTTP` of `github.com/go-chi/chi` on the path it routes on
(taken as it is: an empty path matches no route): a method outside `methodMap`
is answered 405; a route for the path and method runs its handler; a path that
only routes of other methods match is answered 405, a path no route matches
404. -/
def Mux.routeHTTP (mx : Mux) (method routePath : GoString) : RouteResult :=
  if method ∉ methodMap then .methodNotAllowed
  else
    match mx.routes.find?
        (fun r => patternMatches r.pattern routePath && r.methods.allows method) with
    | some r => .handler r.handler
    | none =>
      if mx.routes.any (fun r => patternMatches r.pattern routePath) then .methodNotAllowed
      else .notFound

/-- Function `strings.TrimPrefix`: `s` without the leading `pre`, or `s` itself if
it does not start with `pre`. -/
def trimLeading (pre s : GoString) : GoString :=
  if pre.isPrefixOf s then s.drop pre.length else s

/-- Function `http.StripPrefix` on the request URL: `pre` is trimmed from `Path`
and from `RawPath`; the wrapped handler gets the trimmed URL if `Path` became
shorter and `RawPath` is empty or became shorter too; otherwise none (answered
404). -/
def stripPath (pre : GoString) (u : URL) : Option URL :=
  if (trimLeading pre u.Path).length < u.Path.length
      ∧ (u.RawPath = [] ∨ (trimLeading pre u.RawPath).length < u.RawPath.length) then
    some { Path := trimLeading pre u.Path, RawPath := trimLeading pre u.RawPath }
  else none

/-- What serves a request in the end. -/
inductive Dispatch
  | index
  | run
  | fileServer (root name : GoString)
  | notFound
  | methodNotAllowed
  deriving DecidableEq, Repr

/-- The router built by `setupRouter` at work: the handler chosen for a method
and a request URL, routed on `routePath`; the static handler is
`http.StripPrefix("/static/", ...)` around
`http.FileServer(http.Dir("./static"))`, which looks up the decoded `Path` of
the URL it is given. -/
def serve (mx : Mux) (method : GoString) (u : URL) : Dispatch :=
  match mx.routeHTTP method (routePath u) with
  | .handler .index => .index
  | .handler .run => .run
  | .handler .static =>
    match stripPath (ascii "/static/") u with
    | some stripped => .fileServer (ascii "./static") stripped.Path
    | none => .notFound
  | .notFound => .notFound
  | .methodNotAllowed => .methodNotAllowed

/-! ## `main` and the process lifecycle -/

/-- An `http.Server` as `main` builds it. -/
structure Server where
  Addr : GoString
  Handler : Mux
  deriving DecidableEq, Repr

/-- Function `os.Getenv`: the value of a variable, empty if it is not set. -/
def Getenv (env : GoString → Option GoString) (key : GoString) : GoString :=
  (env key).getD []

/-- Function `main` up to the server it builds: the router, the port from the
environment (as it is after `init` has loaded `.env`), with a logged warning
and the default when it is empty; the result is the server and the lines
logged.  What `main` does next, serving and `gracefulShutdown`, is `step`. -/
def main (env : GoString → Option GoString) : Server × List GoString :=
  let r := setupRouter
  let port := Getenv env (ascii "PORT")
  let portLog : GoString × List GoString :=
    if port = [] then
      (ascii "8080", [ascii "Warning: PORT environment variable not set. Defaulting to 8080"])
    else (port, [])
  ({ Addr := ascii ":" ++ portLog.1, Handler := r }, portLog.2)

/-- Constant `time.Second`, in nanoseconds. -/
def Second : Nat := 1000000000

/-- The states of the server lifecycle. -/
inductive Phase
  | Starting
  | Listening
  | ShuttingDown
  | Stopped
  deriving DecidableEq, Repr

/-- A signal number. -/
abbrev Signal := Nat

/-- Signal `os.Interrupt` (`syscall.SIGINT`). -/
def SIGINT : Signal := 2

/-- Signal `syscall.SIGTERM`. -/
def SIGTERM : Signal := 15

/-- The signals `gracefulShutdown` registers with `signal.Notify`. -/
def notified : List Signal := [SIGINT, SIGTERM]

/-- What happens to the process. -/
inductive Event
  /-- Method `ListenAndServe` bound the port, or failed. -/
  | listen (ok : Bool)
  /-- A signal is delivered. -/
  | signal (sig : Signal)
  /-- A client opens a connection and sends a request: its method, the path it
  is routed on and its body. -/
  | request (method path body : GoString)
  /-- Method `server.Shutdown` returns: every connection finished (`true`) or the
  deadline passed first (`false`). -/
  | shutdownReturned (drained : Bool)
  deriving DecidableEq, Repr

/-- The process: its lifecycle state, whether the listener is open, the number of
connections accepted, the deadlines (in nanoseconds) of the contexts handed to
`server.Shutdown`, and the log. -/
structure Process where
  phase : Phase
  accepting : Bool
  accepted : Nat
  shutdownCalls : List Nat
  log : List GoString
  deriving DecidableEq, Repr

/-- The process as `main` starts. -/
def Process.start : Process :=
  { phase := .Starting, accepting := false, accepted := 0, shutdownCalls := [], log := [] }

/-- gracefulShutdown listens for interrupt signals and gracefully shuts down the
server, allowing ongoing operations to complete: the part run when a signal
arrives on `stopChan`, up to the call of `server.Shutdown`, which closes the
listener. -/
def gracefulShutdown (p : Process) : Process :=
  { p with
    phase := .ShuttingDown,
    accepting := false,
    shutdownCalls := p.shutdownCalls ++ [30 * Second],
    log := p.log ++ [ascii "Shutting down server..."] }

/-- How a handler's end moves the process: `log.Fatal` stops it. -/
def afterHandler (p : Process) (o : Outcome) : Process :=
  match o.exit with
  | .returned => p
  | .fatal msg => { p with phase := .Stopped, accepting := false, log := p.log ++ [msg] }

/-- One step of the process, for the assets and the backend it runs with. -/
def step (a : Assets) (be : Backend) (p : Process) : Event → Process
  | .listen ok =>
    match p.phase with
    | .Starting =>
      if ok then { p with phase := .Listening, accepting := true }
      else { p with phase := .Stopped, log := p.log ++ [ascii "ListenAndServe error"] }
    | _ => p
  | .signal sig =>
    match p.phase with
    | .Starting => if sig ∈ notified then gracefulShutdown p else p
    | .Listening => if sig ∈ notified then gracefulShutdown p else p
    | _ => p
  | .request method path body =>
    if p.phase = .Listening ∧ p.accepting = true then
      let p1 := { p with accepted := p.accepted + 1 }
      match setupRouter.routeHTTP method path with
      | .handler .index => afterHandler p1 (index a .fresh)
      | .handler .run => afterHandler p1 (run be .fresh body)
      | _ => p1
    else p
  | .shutdownReturned _ =>
    match p.phase with
    | .ShuttingDown =>
      { p with phase := .Stopped, log := p.log ++ [ascii "Server gracefully stopped"] }
    | _ => p

/-- The process after a sequence of events. -/
def exec (a : Assets) (be : Backend) (p : Process) (events : List Event) : Process :=
  events.foldl (step a be) p

/-- A backend whose client cannot be constructed: `ollama.New` fails with `err`. -/
def refusingBackend (err : GoString) : Backend :=
  { construct := fun _ => some err, complete := fun _ _ => .error err }

/-- Assets with no file at all (and a template engine that echoes its text). -/
def noAssets : Assets :=
  { file := fun _ => none, render := fun src => .ok src }

/-- What holds of the process in every run: `server.Shutdown` has not been called
before the shutdown, and has been called once, with a deadline of 30 seconds,
and the listener is closed, once the process is shutting down. -/
def LifecycleInv (p : Process) : Prop :=
  (p.phase = .Starting ∨ p.phase = .Listening → p.shutdownCalls = [])
    ∧ (p.phase = .ShuttingDown → p.shutdownCalls = [30 * Second] ∧ p.accepting = false)
    ∧ (p.shutdownCalls = [] ∨ p.shutdownCalls = [30 * Second])

/-- A reader's result whose error, if any, is one of Go's, and that, if a value,
leaves fewer than `n` bytes unread. -/
def Consumes {α : Type} (n : Nat) (res : Except DecodeError (α × GoString)) : Prop :=
  (∀ e, res = .error e → e.real = true) ∧ ∀ a r, res = .ok (a, r) → r.length < n

/-- The body, as the decoder reads it, is the JSON object with the one member
`input` holding the string `s`. -/
def IsInputObject (body s : GoString) : Prop :=
  readValue body = .ok (.object [(ascii "input", .string s)])

/-! ## Lemmas: UTF-8 and the JSON codec -/

theorem decodeRune_take4 (s : GoString) : decodeRune (s.take 4) = decodeRune s := by
  rcases s with _ | ⟨a, _ | ⟨b, _ | ⟨c, _ | ⟨d, t⟩⟩⟩⟩ <;> simp [decodeRune]

theorem encodeRune_two (p0 b1 : Nat) (h0 : 0xC2 ≤ p0) (h1 : p0 < 0xE0) (h2 : 0x80 ≤ b1)
    (h3 : b1 ≤ 0xBF) : encodeRune ((p0 % 0x20) * 0x40 + b1 % 0x40) = [p0, b1] := by
  unfold encodeRune
  rw [if_neg (by omega), if_pos (by omega)]
  congr 1
  · omega
  · congr 1; omega

theorem encodeRune_three (p0 b1 b2 : Nat) (h0 : 0xE0 ≤ p0) (h1 : p0 < 0xF0)
    (h2 : acceptLo p0 ≤ b1) (h3 : b1 ≤ acceptHi p0) (h4 : 0x80 ≤ b2) (h5 : b2 ≤ 0xBF) :
    encodeRune ((p0 % 0x10) * 0x1000 + (b1 % 0x40) * 0x40 + b2 % 0x40) = [p0, b1, b2] := by
  unfold acceptLo at h2
  unfold acceptHi at h3
  unfold encodeRune
  split_ifs at h2 h3 <;>
  · rw [if_neg (by omega), if_neg (by omega), if_neg (by omega), if_pos (by omega)]
    congr 1
    · omega
    · congr 1
      · omega
      · congr 1; omega

theorem encodeRune_four (p0 b1 b2 b3 : Nat) (h0 : 0xF0 ≤ p0) (h1 : p0 < 0xF5)
    (h2 : acceptLo p0 ≤ b1) (h3 : b1 ≤ acceptHi p0) (h4 : 0x80 ≤ b2) (h5 : b2 ≤ 0xBF)
    (h6 : 0x80 ≤ b3) (h7 : b3 ≤ 0xBF) :
    encodeRune ((p0 % 0x08) * 0x40000 + (b1 % 0x40) * 0x1000 + (b2 % 0x40) * 0x40 + b3 % 0x40)
      = [p0, b1, b2, b3] := by
  unfold acceptLo at h2
  unfold acceptHi at h3
  unfold encodeRune
  split_ifs at h2 h3 <;>
  · rw [if_neg (by omega), if_neg (by omega), if_neg (by omega), if_neg (by omega)]
    congr 1
    · omega
    · congr 1
      · omega
      · congr 1
        · omega
        · congr 1; omega

/-- What a successful multi-byte decoding step says. -/
theorem decodeRune_step (b : Nat) (rest : GoString) (hb : 0x80 ≤ b)
    (h : (decodeRune (b :: rest)).2 ≠ 1) :
    2 ≤ (decodeRune (b :: rest)).2
    ∧ (decodeRune (b :: rest)).2 ≤ (b :: rest).length
    ∧ encodeRune (decodeRune (b :: rest)).1 = (b :: rest).take (decodeRune (b :: rest)).2
    ∧ (∀ Y, decodeRune ((b :: rest).take (decodeRune (b :: rest)).2 ++ Y) = decodeRune (b :: rest))
    ∧ (∀ x ∈ (b :: rest).take (decodeRune (b :: rest)).2, 0x80 ≤ x) := by
  have hb' : ¬ b < 0x80 := by omega
  by_cases c1 : b < 0xC2
  · simp [decodeRune, hb', c1] at h
  by_cases c2 : 0xF5 ≤ b
  · simp [decodeRune, hb', c1, c2] at h
  rcases rest with _ | ⟨b1, rest1⟩
  · simp [decodeRune, hb', c1, c2] at h
  by_cases c3 : b1 < acceptLo b ∨ acceptHi b < b1
  · simp [decodeRune, hb', c1, c2, c3] at h
  have hlo : acceptLo b ≤ b1 := by omega
  have hhi : b1 ≤ acceptHi b := by omega
  have hb1 : 0x80 ≤ b1 := by unfold acceptLo at hlo; split_ifs at hlo <;> omega
  by_cases c4 : b < 0xE0
  · have e := encodeRune_two b b1 (by omega) c4 hb1 (by unfold acceptHi at hhi; split_ifs at hhi <;> omega)
    simp only [decodeRune, hb', c1, c2, c3, c4, if_true, if_false]
    refine ⟨by omega, by simp, by simpa using e, ?_, ?_⟩
    · intro Y; simp [decodeRune, hb', c1, c2, c3, c4]
    · intro x hx; simp at hx; rcases hx with rfl | rfl <;> omega
  rcases rest1 with _ | ⟨b2, rest2⟩
  · simp [decodeRune, hb', c1, c2, c3, c4] at h
  by_cases c5 : b2 < 0x80 ∨ 0xBF < b2
  · simp [decodeRune, hb', c1, c2, c3, c4, c5] at h
  by_cases c6 : b < 0xF0
  · have e := encodeRune_three b b1 b2 (by omega) c6 hlo hhi (by omega) (by omega)
    simp only [decodeRune, hb', c1, c2, c3, c4, c5, c6, if_true, if_false]
    refine ⟨by omega, by simp, by simpa using e, ?_, ?_⟩
    · intro Y; simp [decodeRune, hb', c1, c2, c3, c4, c5, c6]
    · intro x hx; simp at hx; rcases hx with rfl | rfl | rfl <;> omega
  rcases rest2 with _ | ⟨b3, rest3⟩
  · simp [decodeRune, hb', c1, c2, c3, c4, c5, c6] at h
  by_cases c7 : b3 < 0x80 ∨ 0xBF < b3
  · simp [decodeRune, hb', c1, c2, c3, c4, c5, c6, c7] at h
  have e := encodeRune_four b b1 b2 b3 (by omega) (by omega) hlo hhi (by omega) (by omega)
    (by omega) (by omega)
  simp only [decodeRune, hb', c1, c2, c3, c4, c5, c6, c7, if_true, if_false]
  refine ⟨by omega, by simp, by simpa using e, ?_, ?_⟩
  · intro Y; simp [decodeRune, hb', c1, c2, c3, c4, c5, c6, c7]
  · intro x hx; simp at hx; rcases hx with rfl | rfl | rfl | rfl <;> omega

theorem unsafe_cases (b : Nat) (hb : b < 0x80) (h : htmlSafeSet b = false) :
    b < 0x20 ∨ b = 0x22 ∨ b = 0x26 ∨ b = 0x3C ∨ b = 0x3E ∨ b = 0x5C := by
  simp [htmlSafeSet] at h
  omega

theorem unquoteLoop_escapeByte (b : Nat) (hb : b < 0x80) (h : htmlSafeSet b = false)
    (f : Nat) (Y : GoString) :
    unquoteLoop (f + 1) (escapeByte b ++ Y) = (unquoteLoop f Y).map (b :: ·) := by
  rcases unsafe_cases b hb h with h1 | h1 | h1 | h1 | h1 | h1
  · interval_cases b <;>
      simp [escapeByte, unquoteLoop, unquoteStep, getu4, hexVal, hexDigit, isSurrogate, encodeRune]
  all_goals
    subst h1
    simp [escapeByte, unquoteLoop, unquoteStep, getu4, hexVal, hexDigit, isSurrogate, encodeRune]

theorem consRaw_consRaw (a b : GoString) (res : Except DecodeError (GoString × GoString)) :
    consRaw a (consRaw b res) = consRaw (a ++ b) res := by
  cases res with
  | error e => rfl
  | ok p => simp [consRaw]

theorem consRaw_nil (res : Except DecodeError (GoString × GoString)) :
    consRaw [] res = res := by
  cases res with
  | error e => rfl
  | ok p => simp [consRaw]

theorem scanString_quote (Z : GoString) : scanString (0x22 :: Z) = .ok ([], Z) := by
  simp [scanString, scanStringFrom]

theorem scanString_plain (c : Nat) (Z : GoString) (h1 : c ≠ 0x22) (h2 : c ≠ 0x5C)
    (h3 : 0x20 ≤ c) : scanString (c :: Z) = consRaw [c] (scanString Z) := by
  have h4 : ¬ c < 0x20 := by omega
  simp [scanString, scanStringFrom, h1, h2, h4]

theorem scanString_simple (e : Nat) (Z : GoString) (h : isSimpleEscape e = true) :
    scanString (0x5C :: e :: Z) = consRaw [0x5C, e] (scanString Z) := by
  simp [scanString, scanStringFrom, h, consRaw_consRaw]

theorem scanString_u (h1 h2 h3 h4 : Nat) (Z : GoString) (e1 : isHex h1 = true)
    (e2 : isHex h2 = true) (e3 : isHex h3 = true) (e4 : isHex h4 = true) :
    scanString (0x5C :: 0x75 :: h1 :: h2 :: h3 :: h4 :: Z)
      = consRaw [0x5C, 0x75, h1, h2, h3, h4] (scanString Z) := by
  simp [scanString, scanStringFrom, isSimpleEscape, e1, e2, e3, e4, consRaw_consRaw]

theorem isHex_hexDigit (n : Nat) (h : n < 16) : isHex (hexDigit n) = true := by
  interval_cases n <;> decide

theorem hexVal_hexDigit (n : Nat) (h : n < 16) : hexVal (hexDigit n) = some n := by
  interval_cases n <;> decide

theorem scanString_escapeByte (b : Nat) (hb : b < 0x80) (h : htmlSafeSet b = false)
    (Z : GoString) :
    scanString (escapeByte b ++ Z) = consRaw (escapeByte b) (scanString Z) := by
  rcases unsafe_cases b hb h with h1 | h1 | h1 | h1 | h1 | h1
  · unfold escapeByte
    split_ifs
    · omega
    all_goals first
      | exact scanString_simple _ Z (by decide)
      | exact scanString_u _ _ _ _ Z (by decide) (by decide) (isHex_hexDigit _ (by omega))
          (isHex_hexDigit _ (by omega))
  all_goals
    subst h1
    first
      | exact scanString_simple _ Z (by decide)
      | exact scanString_u _ _ _ _ Z (by decide) (by decide) (by decide) (by decide)

theorem scanString_of_high (pre : GoString) (h : ∀ x ∈ pre, 0x80 ≤ x) (Z : GoString) :
    scanString (pre ++ Z) = consRaw pre (scanString Z) := by
  induction pre with
  | nil => simp [consRaw_nil]
  | cons c pre ih =>
    have hc : 0x80 ≤ c := h c (by simp)
    rw [List.cons_append, scanString_plain c _ (by omega) (by omega) (by omega),
      ih (fun x hx => h x (by simp [hx])), consRaw_consRaw]
    rfl

theorem decodeRune_invalid (b : Nat) (rest : GoString) (hb : 0x80 ≤ b)
    (h : (decodeRune (b :: rest)).2 = 1) : (decodeRune (b :: rest)).1 = RuneError := by
  have hb' : ¬ b < 0x80 := by omega
  rcases rest with _ | ⟨b1, _ | ⟨b2, _ | ⟨b3, t⟩⟩⟩ <;>
    simp only [decodeRune, hb', if_false] at h ⊢ <;>
    split_ifs at h ⊢ <;> simp_all

theorem scanString_appendStringLoop (n : Nat) : ∀ (s : GoString), s.length ≤ n →
    ∀ Z : GoString,
      scanString (appendStringLoop n s ++ 0x22 :: Z) = .ok (appendStringLoop n s, Z) := by
  induction n with
  | zero =>
    intro s hlen Z
    simp [appendStringLoop, scanString_quote]
  | succ n ih =>
    intro s hlen Z
    rcases s with _ | ⟨b, rest⟩
    · simp [appendStringLoop, scanString_quote]
    · simp only [List.length_cons, Nat.add_le_add_iff_right] at hlen
      by_cases hb : b < 0x80
      · by_cases hs : htmlSafeSet b = true
        · have h1 : b ≠ 0x22 := by rintro rfl; simp [htmlSafeSet] at hs
          have h2 : b ≠ 0x5C := by rintro rfl; simp [htmlSafeSet] at hs
          have h3 : 0x20 ≤ b := by simp [htmlSafeSet] at hs; omega
          simp only [appendStringLoop, hb, hs, if_true, List.cons_append]
          rw [scanString_plain b _ h1 h2 h3, ih rest hlen Z]
          rfl
        · have hs' : htmlSafeSet b = false := by simpa using hs
          simp only [appendStringLoop, hb, hs', if_true, Bool.false_eq_true, if_false,
            List.append_assoc]
          rw [scanString_escapeByte b hb hs', ih rest hlen Z]
          rfl
      · have hb' : 0x80 ≤ b := by omega
        by_cases h1 : (decodeRune (b :: rest)).2 = 1
        · have hr := decodeRune_invalid b rest hb' h1
          simp only [appendStringLoop, hb, if_false, decodeRune_take4, h1, hr, and_self,
            if_true, List.drop_one, List.tail_cons, List.cons_append, List.nil_append]
          rw [scanString_u _ _ _ _ _ (by decide) (by decide) (by decide) (by decide),
            ih rest hlen Z]
          rfl
        · obtain ⟨k2, klen, kenc, kdec, khigh⟩ := decodeRune_step b rest hb' h1
          have hdrop : ((b :: rest).drop (decodeRune (b :: rest)).2).length ≤ n := by
            simp only [List.length_drop, List.length_cons]; omega
          have IH := ih _ hdrop Z
          simp only [appendStringLoop, hb, if_false, decodeRune_take4, h1, and_false]
          split_ifs with h2
          · rw [List.append_assoc, List.cons_append, List.cons_append, List.cons_append,
              List.cons_append, List.cons_append, List.cons_append,
              scanString_u _ _ _ _ _ (by decide) (by decide) (by decide)
                (isHex_hexDigit _ (by omega)), List.nil_append, IH]
            rfl
          · rw [List.append_assoc, scanString_of_high _ khigh, IH]
            rfl

theorem unquoteLoop_plain (c f : Nat) (Y : GoString) (h1 : c ≠ 0x22) (h2 : c ≠ 0x5C)
    (h3 : 0x20 ≤ c) (h4 : c < 0x80) :
    unquoteLoop (f + 1) (c :: Y) = (unquoteLoop f Y).map (c :: ·) := by
  have h5 : ¬ c < 0x20 := by omega
  simp [unquoteLoop, unquoteStep, h1, h2, h4, h5]

theorem unquoteLoop_high (c f : Nat) (Y : GoString) (h : 0x80 ≤ c) :
    unquoteLoop (f + 1) (c :: Y) =
      (unquoteLoop f ((c :: Y).drop (decodeRune (c :: Y)).2)).map
        (encodeRune (decodeRune (c :: Y)).1 ++ ·) := by
  have h1 : c ≠ 0x22 := by omega
  have h2 : c ≠ 0x5C := by omega
  have h4 : ¬ c < 0x80 := by omega
  have h5 : ¬ c < 0x20 := by omega
  simp [unquoteLoop, unquoteStep, h1, h2, h4, h5]

theorem unquoteLoop_u202 (d f : Nat) (Y : GoString) (h : d = 8 ∨ d = 9) :
    unquoteLoop (f + 1) ([0x5C, 0x75, 0x32, 0x30, 0x32, hexDigit d] ++ Y) =
      (unquoteLoop f Y).map (encodeRune (0x2020 + d) ++ ·) := by
  rcases h with rfl | rfl <;>
    simp [unquoteLoop, unquoteStep, getu4, hexVal, hexDigit, isSurrogate]

theorem unquoteLoop_ufffd (f : Nat) (Y : GoString) :
    unquoteLoop (f + 1) ([0x5C, 0x75, 0x66, 0x66, 0x66, 0x64] ++ Y) =
      (unquoteLoop f Y).map ([0xEF, 0xBF, 0xBD] ++ ·) := by
  simp [unquoteLoop, unquoteStep, getu4, hexVal, isSurrogate, encodeRune]

theorem unquoteLoop_appendStringLoop (n : Nat) : ∀ (s : GoString), s.length ≤ n →
    ∀ f : Nat, (appendStringLoop n s).length ≤ f →
      unquoteLoop f (appendStringLoop n s) = some (coerceLoop n s) := by
  induction n with
  | zero =>
    intro s hlen f _
    cases f <;> simp [appendStringLoop, unquoteLoop, coerceLoop]
  | succ n ih =>
    intro s hlen f hf
    rcases s with _ | ⟨b, rest⟩
    · cases f <;> simp [appendStringLoop, unquoteLoop, coerceLoop]
    · simp only [List.length_cons, Nat.add_le_add_iff_right] at hlen
      by_cases hb : b < 0x80
      · by_cases hs : htmlSafeSet b = true
        · have h1 : b ≠ 0x22 := by rintro rfl; simp [htmlSafeSet] at hs
          have h2 : b ≠ 0x5C := by rintro rfl; simp [htmlSafeSet] at hs
          have h3 : 0x20 ≤ b := by simp [htmlSafeSet] at hs; omega
          simp only [appendStringLoop, coerceLoop, hb, hs, if_true] at hf ⊢
          obtain ⟨g, rfl⟩ : ∃ g, f = g + 1 := ⟨f - 1, by simp at hf; omega⟩
          rw [unquoteLoop_plain b g _ h1 h2 h3 hb, ih rest hlen g (by simp at hf; omega)]
          rfl
        · have hs' : htmlSafeSet b = false := by simpa using hs
          simp only [appendStringLoop, coerceLoop, hb, hs', if_true, Bool.false_eq_true,
            if_false] at hf ⊢
          have hpos : 1 ≤ (escapeByte b).length := by
            unfold escapeByte; split_ifs <;> simp
          obtain ⟨g, rfl⟩ : ∃ g, f = g + 1 := ⟨f - 1, by simp at hf; omega⟩
          rw [unquoteLoop_escapeByte b hb hs', ih rest hlen g (by simp at hf; omega)]
          rfl
      · have hb' : 0x80 ≤ b := by omega
        by_cases h1 : (decodeRune (b :: rest)).2 = 1
        · have hr := decodeRune_invalid b rest hb' h1
          simp only [appendStringLoop, coerceLoop, hb, if_false, decodeRune_take4, h1, hr,
            and_self, if_true, List.drop_one, List.tail_cons] at hf ⊢
          obtain ⟨g, rfl⟩ : ∃ g, f = g + 1 := ⟨f - 1, by simp at hf; omega⟩
          rw [unquoteLoop_ufffd, ih rest hlen g (by simp at hf; omega)]
          rfl
        · obtain ⟨k2, klen, kenc, kdec, khigh⟩ := decodeRune_step b rest hb' h1
          have hdrop : ((b :: rest).drop (decodeRune (b :: rest)).2).length ≤ n := by
            simp only [List.length_drop, List.length_cons]; omega
          have IH := ih _ hdrop
          simp only [appendStringLoop, coerceLoop, hb, if_false, decodeRune_take4, h1,
            and_false] at hf ⊢
          split_ifs at hf ⊢ with h2
          · obtain ⟨g, rfl⟩ : ∃ g, f = g + 1 := ⟨f - 1, by simp at hf; omega⟩
            have hd : (decodeRune (b :: rest)).1 % 16 = 8 ∨ (decodeRune (b :: rest)).1 % 16 = 9 := by
              rcases h2 with h2 | h2 <;> rw [h2] <;> simp
            have he : 0x2020 + (decodeRune (b :: rest)).1 % 16 = (decodeRune (b :: rest)).1 := by
              rcases h2 with h2 | h2 <;> rw [h2]
            rw [unquoteLoop_u202 _ g _ hd, IH g (by simp at hf; omega), he, kenc]
            rfl
          · obtain ⟨g, rfl⟩ : ∃ g, f = g + 1 := ⟨f - 1, by simp at hf; omega⟩
            have hlt : ((b :: rest).take (decodeRune (b :: rest)).2).length
                = (decodeRune (b :: rest)).2 := by
              simp only [List.length_take, List.length_cons] at klen ⊢; omega
            obtain ⟨c0, t0, ht0⟩ : ∃ c0 t0, (b :: rest).take (decodeRune (b :: rest)).2 = c0 :: t0 := by
              cases hx : (b :: rest).take (decodeRune (b :: rest)).2 with
              | nil => rw [hx] at hlt; simp at hlt; omega
              | cons c0 t0 => exact ⟨c0, t0, rfl⟩
            have hc0 : 0x80 ≤ c0 := khigh c0 (by rw [ht0]; simp)
            have key := kdec (appendStringLoop n ((b :: rest).drop (decodeRune (b :: rest)).2))
            rw [ht0] at hf
            rw [ht0, List.cons_append] at key
            rw [ht0, List.cons_append, unquoteLoop_high c0 g _ hc0, key, ← List.cons_append, ← ht0,
              List.drop_left' hlt, IH g (by simp at hf; omega), kenc]
            rfl

theorem coerceLoop_of_valid (n : Nat) : ∀ (s : GoString), s.length ≤ n →
    validLoop n s = true → coerceLoop n s = s := by
  induction n with
  | zero =>
    intro s hlen _
    have : s = [] := by simpa using hlen
    subst this
    rfl
  | succ n ih =>
    intro s hlen hv
    rcases s with _ | ⟨b, rest⟩
    · rfl
    · simp only [List.length_cons, Nat.add_le_add_iff_right] at hlen
      by_cases hb : b < 0x80
      · simp only [validLoop, hb, if_true] at hv
        simp only [coerceLoop, hb, if_true, ih rest hlen hv]
      · simp only [validLoop, hb, if_false] at hv
        by_cases h1 : (decodeRune (b :: rest)).2 = 1
        · simp [h1] at hv
        · simp only [h1, if_false] at hv
          obtain ⟨k2, klen, -, -, -⟩ := decodeRune_step b rest (by omega) h1
          have hdrop : ((b :: rest).drop (decodeRune (b :: rest)).2).length ≤ n := by
            simp only [List.length_drop, List.length_cons]; omega
          simp only [coerceLoop, hb, h1, if_false, ih _ hdrop hv, List.take_append_drop]

theorem coerceUTF8_of_valid (s : GoString) (h : utf8Valid s = true) : coerceUTF8 s = s :=
  coerceLoop_of_valid s.length s (le_refl _) h

theorem skipSpace_cons (c : Nat) (Z : GoString) (h : isSpace c = false) :
    skipSpace (c :: Z) = c :: Z := by
  simp [skipSpace, h]

theorem unquote_appendStringLoop (s : GoString) :
    unquote (appendStringLoop s.length s) = some (coerceUTF8 s) :=
  unquoteLoop_appendStringLoop s.length s (le_refl _) _ (le_refl _)

theorem appendString_append (s Y : GoString) :
    appendString s ++ Y = 0x22 :: (appendStringLoop s.length s ++ 0x22 :: Y) := by
  simp [appendString]

theorem parseValue_appendString (s : GoString) (f d : Nat) (Y : GoString) :
    parseValue (f + 1) d (appendString s ++ Y) = .ok (.string (coerceUTF8 s), Y) := by
  rw [appendString_append, parseValue, skipSpace_cons _ _ (by decide)]
  simp [scanString_appendStringLoop s.length s (le_refl _) Y, unquote_appendStringLoop s]

theorem parseMembers_last (k v : GoString) (f d : Nat) (Y : GoString) :
    parseMembers (f + 2) d (appendString k ++ 0x3A :: (appendString v ++ 0x7D :: Y))
      = .ok ([(coerceUTF8 k, .string (coerceUTF8 v))], Y) := by
  rw [appendString_append, parseMembers, skipSpace_cons _ _ (by decide)]
  simp [scanString_appendStringLoop k.length k (le_refl _), unquote_appendStringLoop k,
    skipSpace_cons, isSpace, parseValue_appendString v]

theorem parseMembers_more (k v : GoString) (f d : Nat) (Z : GoString) :
    parseMembers (f + 2) d (appendString k ++ 0x3A :: (appendString v ++ 0x2C :: Z))
      = match parseMembers (f + 1) d Z with
        | .ok (ms, r) => .ok ((coerceUTF8 k, .string (coerceUTF8 v)) :: ms, r)
        | .error err => .error err := by
  rw [appendString_append, parseMembers, skipSpace_cons _ _ (by decide)]
  simp [scanString_appendStringLoop k.length k (le_refl _), unquote_appendStringLoop k,
    skipSpace_cons, isSpace, parseValue_appendString v]

theorem parseValue_marshalPrompt (s : GoString) (f : Nat) (Y : GoString) :
    parseValue (f + 3) 0 (marshalPrompt ⟨s⟩ ++ Y)
      = .ok (.object [(ascii "input", .string (coerceUTF8 s))], Y) := by
  have e : marshalPrompt ⟨s⟩ ++ Y
      = 0x7B :: (appendString (ascii "input") ++ 0x3A :: (appendString s ++ 0x7D :: Y)) := by
    simp [marshalPrompt]
  have e2 : ∀ Z, skipSpace (appendString (ascii "input") ++ Z) = appendString (ascii "input") ++ Z := by
    intro Z; rw [appendString_append, skipSpace_cons _ _ (by decide)]
  rw [e, parseValue, skipSpace_cons _ _ (by decide)]
  simp only [e2]
  rw [appendString_append]
  simp only [maxNestingDepth, ← appendString_append]
  simp
  rw [parseMembers_last (ascii "input") s]
  rfl

theorem parseValue_marshalPromptResponse (i r : GoString) (f : Nat) (Y : GoString) :
    parseValue (f + 4) 0 (marshalPromptResponse ⟨i, r⟩ ++ Y)
      = .ok (.object [(ascii "input", .string (coerceUTF8 i)),
          (ascii "response", .string (coerceUTF8 r))], Y) := by
  have e : marshalPromptResponse ⟨i, r⟩ ++ Y
      = 0x7B :: (appendString (ascii "input") ++ 0x3A :: (appendString i ++ 0x2C ::
          (appendString (ascii "response") ++ 0x3A :: (appendString r ++ 0x7D :: Y)))) := by
    simp [marshalPromptResponse]
  have e2 : ∀ Z, skipSpace (appendString (ascii "input") ++ Z) = appendString (ascii "input") ++ Z := by
    intro Z; rw [appendString_append, skipSpace_cons _ _ (by decide)]
  rw [e, parseValue, skipSpace_cons _ _ (by decide)]
  simp only [e2]
  rw [appendString_append]
  simp only [maxNestingDepth, ← appendString_append]
  simp
  rw [parseMembers_more (ascii "input") i (f + 1),
    parseMembers_last (ascii "response") r]
  rfl

theorem readValue_marshalPrompt (s : GoString) (Y : GoString) :
    readValue (marshalPrompt ⟨s⟩ ++ Y)
      = .ok (.object [(ascii "input", .string (coerceUTF8 s))]) := by
  have e : marshalPrompt ⟨s⟩ ++ Y
      = 0x7B :: (appendString (ascii "input") ++ 0x3A :: (appendString s ++ 0x7D :: Y)) := by
    simp [marshalPrompt]
  have hpos : 1 ≤ (marshalPrompt ⟨s⟩ ++ Y).length := by rw [e]; simp
  have hlen : 2 * (marshalPrompt ⟨s⟩ ++ Y).length + 2
      = (2 * (marshalPrompt ⟨s⟩ ++ Y).length - 1) + 3 := by omega
  unfold readValue
  rw [hlen, parseValue_marshalPrompt s, e, skipSpace_cons _ _ (by decide)]

theorem decodePrompt_marshalPrompt (s : GoString) :
    decodePrompt (marshalPrompt ⟨s⟩) = .ok ⟨coerceUTF8 s⟩ := by
  have h := readValue_marshalPrompt s []
  rw [List.append_nil] at h
  unfold decodePrompt
  rw [h]
  rfl

theorem readValue_marshalPromptResponse (i r : GoString) (Y : GoString) :
    readValue (marshalPromptResponse ⟨i, r⟩ ++ Y)
      = .ok (.object [(ascii "input", .string (coerceUTF8 i)),
          (ascii "response", .string (coerceUTF8 r))]) := by
  have e : marshalPromptResponse ⟨i, r⟩ ++ Y
      = 0x7B :: (appendString (ascii "input") ++ 0x3A :: (appendString i ++ 0x2C ::
          (appendString (ascii "response") ++ 0x3A :: (appendString r ++ 0x7D :: Y)))) := by
    simp [marshalPromptResponse]
  have hpos : 1 ≤ (marshalPromptResponse ⟨i, r⟩ ++ Y).length := by rw [e]; simp
  have hlen : 2 * (marshalPromptResponse ⟨i, r⟩ ++ Y).length + 2
      = (2 * (marshalPromptResponse ⟨i, r⟩ ++ Y).length - 2) + 4 := by omega
  unfold readValue
  rw [hlen, parseValue_marshalPromptResponse i r, e, skipSpace_cons _ _ (by decide)]

theorem decodePromptResponse_encode (i r : GoString) :
    decodePromptResponse (encodePromptResponse ⟨i, r⟩)
      = .ok ⟨coerceUTF8 i, coerceUTF8 r⟩ := by
  unfold decodePromptResponse encodePromptResponse
  rw [readValue_marshalPromptResponse i r]
  rfl

theorem skipSpace_length (s : GoString) : (skipSpace s).length ≤ s.length := by
  induction s with
  | nil => simp [skipSpace]
  | cons c rest ih =>
    simp only [skipSpace]
    split_ifs
    · simp only [List.length_cons]; omega
    · exact le_refl _

theorem skipSpace_eq_cons (s : GoString) (c : Nat) (rest : GoString)
    (h : skipSpace s = c :: rest) : rest.length < s.length := by
  have := skipSpace_length s
  rw [h] at this
  simp only [List.length_cons] at this
  omega

theorem consRaw_ok (pre : GoString) (res : Except DecodeError (GoString × GoString))
    (raw r : GoString) (h : consRaw pre res = .ok (raw, r)) :
    ∃ raw0, res = .ok (raw0, r) := by
  cases res with
  | error e => simp [consRaw] at h
  | ok p =>
    obtain ⟨a, b⟩ := p
    simp only [consRaw, Except.ok.injEq, Prod.mk.injEq] at h
    exact ⟨a, by rw [h.2]⟩

theorem consRaw_error (pre : GoString) (res : Except DecodeError (GoString × GoString))
    (e : DecodeError) (h : consRaw pre res = .error e) : res = .error e := by
  cases res with
  | error e0 => simpa [consRaw] using h
  | ok p => simp [consRaw] at h

theorem scanStringFrom_length (s : GoString) : ∀ (st : StringState) (raw r : GoString),
    scanStringFrom st s = .ok (raw, r) → r.length < s.length := by
  induction s with
  | nil => intro st raw r h; cases st <;> simp [scanStringFrom] at h
  | cons c rest ih =>
    intro st raw r h
    cases st <;> simp only [scanStringFrom] at h <;> split_ifs at h <;>
      first
        | (simp only [Except.ok.injEq, Prod.mk.injEq] at h; rw [← h.2]; simp)
        | (obtain ⟨raw0, h0⟩ := consRaw_ok _ _ _ _ h
           have := ih _ _ _ h0
           simp only [List.length_cons]; omega)


theorem scanStringFrom_real (s : GoString) : ∀ (st : StringState) (e : DecodeError),
    scanStringFrom st s = .error e → e.real = true := by
  induction s with
  | nil =>
    intro st e h
    cases st <;> simp only [scanStringFrom, Except.error.injEq] at h <;> subst h <;> rfl
  | cons c rest ih =>
    intro st e h
    cases st <;> simp only [scanStringFrom] at h <;> split_ifs at h <;>
      first
        | exact ih _ _ (consRaw_error _ _ _ h)
        | (simp only [Except.error.injEq] at h; subst h; rfl)

theorem skipDigits_length (s : GoString) : (skipDigits s).length ≤ s.length := by
  induction s with
  | nil => simp [skipDigits]
  | cons c rest ih =>
    simp only [skipDigits]
    split_ifs
    · simp only [List.length_cons]; omega
    · exact le_refl _

theorem scanExp_length (s r : GoString) (h : scanExp s = .ok r) : r.length ≤ s.length := by
  unfold scanExp at h
  split at h
  · simp at h; subst h; simp
  · split_ifs at h
    · split at h
      · simp at h
      · split_ifs at h
        · split at h
          · simp at h
          · split_ifs at h
            · simp only [Except.ok.injEq] at h; subst h
              have := skipDigits_length ‹GoString›
              simp only [List.length_cons]; omega
        · simp only [Except.ok.injEq] at h; subst h
          have := skipDigits_length ‹GoString›
          simp only [List.length_cons]; omega
    · simp only [Except.ok.injEq] at h; subst h; exact le_refl _

theorem scanExp_real (s : GoString) (e : DecodeError) (h : scanExp s = .error e) :
    e.real = true := by
  unfold scanExp at h
  repeat' split at h
  all_goals first
    | (simp only [Except.error.injEq] at h; subst h; rfl)
    | simp at h

theorem scanFrac_length (s r : GoString) (h : scanFrac s = .ok r) : r.length ≤ s.length := by
  unfold scanFrac at h
  split at h
  · simp at h; subst h; simp
  · split_ifs at h
    · split at h
      · simp at h
      · split_ifs at h
        have h1 := scanExp_length _ _ h
        have h2 := skipDigits_length ‹GoString›
        simp only [List.length_cons]; omega
    · exact scanExp_length _ _ h

theorem scanFrac_real (s : GoString) (e : DecodeError) (h : scanFrac s = .error e) :
    e.real = true := by
  unfold scanFrac at h
  repeat' split at h
  all_goals first
    | exact scanExp_real _ _ h
    | (simp only [Except.error.injEq] at h; subst h; rfl)
    | simp at h

theorem scanNumber_length (c : Nat) (s r : GoString) (h : scanNumber c s = .ok r) :
    r.length ≤ s.length := by
  unfold scanNumber at h
  split_ifs at h
  · split at h
    · simp at h
    · split_ifs at h
      · have := scanFrac_length _ _ h
        simp only [List.length_cons]; omega
      · have h1 := scanFrac_length _ _ h
        have h2 := skipDigits_length ‹GoString›
        simp only [List.length_cons]; omega
  · exact scanFrac_length _ _ h
  · have h1 := scanFrac_length _ _ h
    have h2 := skipDigits_length s
    omega

theorem scanNumber_real (c : Nat) (s : GoString) (e : DecodeError)
    (h : scanNumber c s = .error e) : e.real = true := by
  unfold scanNumber at h
  repeat' split at h
  all_goals first
    | exact scanFrac_real _ _ h
    | (simp only [Except.error.injEq] at h; subst h; rfl)

theorem scanLiteral_length (name : String) (es : GoString) : ∀ (s r : GoString),
    scanLiteral name es s = .ok r → r.length ≤ s.length := by
  induction es with
  | nil => intro s r h; simp [scanLiteral] at h; subst h; exact le_refl _
  | cons e es ih =>
    intro s r h
    cases s with
    | nil => simp [scanLiteral] at h
    | cons c rest =>
      simp only [scanLiteral] at h
      split_ifs at h
      have := ih _ _ h
      simp only [List.length_cons]; omega

theorem scanLiteral_real (name : String) (es : GoString) : ∀ (s : GoString)
    (e : DecodeError), scanLiteral name es s = .error e → e.real = true := by
  induction es with
  | nil => intro s e h; simp [scanLiteral] at h
  | cons e0 es ih =>
    intro s e h
    cases s with
    | nil => simp only [scanLiteral, Except.error.injEq] at h; subst h; rfl
    | cons c rest =>
      simp only [scanLiteral] at h
      split_ifs at h
      · exact ih _ _ h
      · simp only [Except.error.injEq] at h; subst h; rfl

theorem consRaw_cancel (pre x r : GoString)
    (res : Except DecodeError (GoString × GoString))
    (h : consRaw pre res = .ok (pre ++ x, r)) : res = .ok (x, r) := by
  cases res with
  | error e => simp [consRaw] at h
  | ok p =>
    obtain ⟨a, b⟩ := p
    simp only [consRaw, Except.ok.injEq, Prod.mk.injEq, List.append_cancel_left_eq] at h
    rw [h.1, h.2]

theorem scanStringFrom_input (s : GoString) : ∀ (st : StringState) (raw r : GoString),
    scanStringFrom st s = .ok (raw, r) → s = raw ++ 0x22 :: r := by
  induction s with
  | nil => intro st raw r h; cases st <;> simp [scanStringFrom] at h
  | cons c rest ih =>
    intro st raw r h
    cases st <;> simp only [scanStringFrom] at h <;> split_ifs at h with h1 <;>
      first
        | (simp only [Except.ok.injEq, Prod.mk.injEq] at h
           rw [← h.1, ← h.2, h1]; rfl)
        | (cases hres : scanStringFrom _ rest with
           | error e => rw [hres] at h; simp [consRaw] at h
           | ok p =>
             obtain ⟨a, b⟩ := p
             rw [hres] at h
             simp only [consRaw, Except.ok.injEq, Prod.mk.injEq] at h
             rw [← h.1, ← h.2, ih _ _ _ hres]; rfl)

theorem hexVal_of_isHex (c : Nat) (h : isHex c = true) : ∃ v, hexVal c = some v := by
  unfold hexVal
  simp only [isHex, Bool.or_eq_true, Bool.and_eq_true, decide_eq_true_eq] at h
  split_ifs
  · exact ⟨_, rfl⟩
  · exact ⟨_, rfl⟩
  · exact ⟨_, rfl⟩
  · omega

theorem isHex_of_hexVal (c v : Nat) (h : hexVal c = some v) : isHex c = true := by
  unfold hexVal at h
  simp only [isHex, Bool.or_eq_true, Bool.and_eq_true, decide_eq_true_eq]
  split_ifs at h <;> omega

/-- The raw text of a scanned string literal: scanning it again up to a closing
quote gives it back. -/
theorem scanString_raw (s raw r : GoString) (h : scanString s = .ok (raw, r)) :
    scanString (raw ++ 0x22 :: r) = .ok (raw, r) := by
  have := scanStringFrom_input s .inString raw r h
  rw [← this]
  exact h

theorem unquoteStep_simple (e : Nat) (t : GoString) (h : isSimpleEscape e = true) :
    ∃ x, unquoteStep 0x5C (e :: t) = some ([x], t) := by
  simp only [isSimpleEscape, Bool.or_eq_true, decide_eq_true_eq] at h
  rcases h with ((((((h | h) | h) | h) | h) | h) | h) | h <;> subst h <;> exact ⟨_, rfl⟩

theorem getu4_some (h1 h2 h3 h4 : Nat) (t : GoString) (e1 : isHex h1 = true)
    (e2 : isHex h2 = true) (e3 : isHex h3 = true) (e4 : isHex h4 = true) :
    ∃ rr, getu4 (0x5C :: 0x75 :: h1 :: h2 :: h3 :: h4 :: t) = some rr := by
  obtain ⟨a, ha⟩ := hexVal_of_isHex h1 e1
  obtain ⟨b, hb⟩ := hexVal_of_isHex h2 e2
  obtain ⟨c, hc⟩ := hexVal_of_isHex h3 e3
  obtain ⟨d, hd⟩ := hexVal_of_isHex h4 e4
  exact ⟨((a * 16 + b) * 16 + c) * 16 + d, by simp [getu4, ha, hb, hc, hd]⟩

theorem getu4_shape (s : GoString) (rr : Nat) (h : getu4 s = some rr) :
    ∃ g1 g2 g3 g4 t, s = 0x5C :: 0x75 :: g1 :: g2 :: g3 :: g4 :: t
      ∧ isHex g1 = true ∧ isHex g2 = true ∧ isHex g3 = true ∧ isHex g4 = true := by
  rcases s with _ | ⟨b, _ | ⟨u, _ | ⟨g1, _ | ⟨g2, _ | ⟨g3, _ | ⟨g4, t⟩⟩⟩⟩⟩⟩ <;>
    try (simp [getu4] at h; done)
  simp only [getu4] at h
  split_ifs at h with hbu
  obtain ⟨rfl, rfl⟩ := hbu
  refine ⟨g1, g2, g3, g4, t, rfl, ?_⟩
  cases ha : hexVal g1 <;> cases hb : hexVal g2 <;> cases hc : hexVal g3 <;>
    cases hd : hexVal g4 <;> simp [ha, hb, hc, hd] at h
  exact ⟨isHex_of_hexVal _ _ ha, isHex_of_hexVal _ _ hb, isHex_of_hexVal _ _ hc,
    isHex_of_hexVal _ _ hd⟩

theorem unquoteStep_u (h1 h2 h3 h4 : Nat) (t : GoString) (e1 : isHex h1 = true)
    (e2 : isHex h2 = true) (e3 : isHex h3 = true) (e4 : isHex h4 = true) :
    ∃ out rem, unquoteStep 0x5C (0x75 :: h1 :: h2 :: h3 :: h4 :: t) = some (out, rem)
      ∧ (rem = t ∨ ∃ g1 g2 g3 g4, t = 0x5C :: 0x75 :: g1 :: g2 :: g3 :: g4 :: rem
          ∧ isHex g1 = true ∧ isHex g2 = true ∧ isHex g3 = true ∧ isHex g4 = true) := by
  obtain ⟨rr, hrr⟩ := getu4_some h1 h2 h3 h4 t e1 e2 e3 e4
  by_cases hsur : isSurrogate rr = true
  · cases hg : getu4 t with
    | none =>
      exact ⟨encodeRune RuneError, t, by simp [unquoteStep, hrr, hsur, hg], Or.inl rfl⟩
    | some rr1 =>
      obtain ⟨g1, g2, g3, g4, t6, rfl, k1, k2, k3, k4⟩ := getu4_shape t rr1 hg
      by_cases hdec : utf16DecodeRune rr rr1 = RuneError
      · exact ⟨encodeRune RuneError, _, by simp [unquoteStep, hrr, hsur, hg, hdec], Or.inl rfl⟩
      · exact ⟨encodeRune (utf16DecodeRune rr rr1), t6,
          by simp [unquoteStep, hrr, hsur, hg, hdec], Or.inr ⟨g1, g2, g3, g4, rfl, k1, k2, k3, k4⟩⟩
  · exact ⟨encodeRune rr, t, by simp [unquoteStep, hrr, hsur], Or.inl rfl⟩

theorem scanString_u_inv (t1 r : GoString)
    (h : scanString (0x5C :: 0x75 :: (t1 ++ 0x22 :: r)) = .ok (0x5C :: 0x75 :: t1, r)) :
    ∃ h1 h2 h3 h4 t5, t1 = h1 :: h2 :: h3 :: h4 :: t5
      ∧ isHex h1 = true ∧ isHex h2 = true ∧ isHex h3 = true ∧ isHex h4 = true
      ∧ scanString (t5 ++ 0x22 :: r) = .ok (t5, r) := by
  have nq : isHex 0x22 = false := by decide
  rcases t1 with _ | ⟨h1, _ | ⟨h2, _ | ⟨h3, _ | ⟨h4, t5⟩⟩⟩⟩
  · simp [scanString, scanStringFrom, isSimpleEscape, nq, consRaw] at h
  · by_cases e1 : isHex h1 = true <;>
      simp [scanString, scanStringFrom, isSimpleEscape, nq, consRaw, e1] at h
  · by_cases e1 : isHex h1 = true <;> by_cases e2 : isHex h2 = true <;>
      simp [scanString, scanStringFrom, isSimpleEscape, nq, consRaw, e1, e2] at h
  · by_cases e1 : isHex h1 = true <;> by_cases e2 : isHex h2 = true <;>
      by_cases e3 : isHex h3 = true <;>
      simp [scanString, scanStringFrom, isSimpleEscape, nq, consRaw, e1, e2, e3] at h
  · by_cases e1 : isHex h1 = true
    swap
    · simp [scanString, scanStringFrom, isSimpleEscape, consRaw, e1] at h
    by_cases e2 : isHex h2 = true
    swap
    · simp [scanString, scanStringFrom, isSimpleEscape, consRaw, e1, e2] at h
    by_cases e3 : isHex h3 = true
    swap
    · simp [scanString, scanStringFrom, isSimpleEscape, consRaw, e1, e2, e3] at h
    by_cases e4 : isHex h4 = true
    swap
    · simp [scanString, scanStringFrom, isSimpleEscape, consRaw, e1, e2, e3, e4] at h
    refine ⟨h1, h2, h3, h4, t5, rfl, e1, e2, e3, e4, ?_⟩
    have := h
    simp only [List.cons_append] at this
    rw [scanString_u h1 h2 h3 h4 _ e1 e2 e3 e4] at this
    exact consRaw_cancel [0x5C, 0x75, h1, h2, h3, h4] t5 r _ this

theorem unquoteLoop_of_scanned (n : Nat) : ∀ (raw r : GoString), raw.length ≤ n →
    scanString (raw ++ 0x22 :: r) = .ok (raw, r) →
    ∀ fuel, raw.length ≤ fuel → ∃ out, unquoteLoop fuel raw = some out := by
  induction n with
  | zero =>
    intro raw r hn _ fuel _
    have : raw = [] := by simpa using hn
    subst this
    cases fuel <;> exact ⟨[], by simp [unquoteLoop]⟩
  | succ n ih =>
    intro raw r hn hs fuel hf
    rcases raw with _ | ⟨c, t⟩
    · cases fuel <;> exact ⟨[], by simp [unquoteLoop]⟩
    · obtain ⟨f, rfl⟩ : ∃ f, fuel = f + 1 := ⟨fuel - 1, by simp at hf; omega⟩
      simp only [List.length_cons, Nat.add_le_add_iff_right] at hn hf
      have finish : ∀ (out rem : GoString), unquoteStep c t = some (out, rem) →
          rem.length ≤ t.length → scanString (rem ++ 0x22 :: r) = .ok (rem, r) →
          ∃ o, unquoteLoop (f + 1) (c :: t) = some o := by
        intro out rem hstep hlen hrem
        obtain ⟨o, ho⟩ := ih rem r (by omega) hrem f (by omega)
        exact ⟨out ++ o, by simp [unquoteLoop, hstep, ho]⟩
      by_cases hq : c = 0x22
      · subst hq
        simp [scanString, scanStringFrom] at hs
      by_cases hb : c = 0x5C
      · subst hb
        rcases t with _ | ⟨e, t1⟩
        · simp [scanString, scanStringFrom, isSimpleEscape, consRaw] at hs
          cases hx : scanStringFrom StringState.inString r with
          | error e => simp [hx] at hs
          | ok p => simp [hx] at hs
        · by_cases he : isSimpleEscape e = true
          · have hs1 : scanString (t1 ++ 0x22 :: r) = .ok (t1, r) := by
              have := hs
              rw [List.cons_append, List.cons_append, scanString_simple e _ he] at this
              exact consRaw_cancel [0x5C, e] t1 r _ this
            obtain ⟨x, hx⟩ := unquoteStep_simple e t1 he
            exact finish [x] t1 hx (by simp) hs1
          · have he' : isSimpleEscape e = false := by simpa using he
            by_cases hu : e = 0x75
            · subst hu
              obtain ⟨h1, h2, h3, h4, t5, rfl, e1, e2, e3, e4, hs5⟩ := scanString_u_inv t1 r hs
              obtain ⟨out, rem, hstep, hrem⟩ := unquoteStep_u h1 h2 h3 h4 t5 e1 e2 e3 e4
              rcases hrem with rfl | ⟨g1, g2, g3, g4, rfl, k1, k2, k3, k4⟩
              · exact finish out rem hstep (by simp only [List.length_cons]; omega) hs5
              · refine finish out rem hstep (by simp only [List.length_cons]; omega) ?_
                have := hs5
                simp only [List.cons_append] at this
                rw [scanString_u g1 g2 g3 g4 _ k1 k2 k3 k4] at this
                exact consRaw_cancel [0x5C, 0x75, g1, g2, g3, g4] rem r _ this
            · simp [scanString, scanStringFrom, he', hu, consRaw] at hs
      by_cases hc : c < 0x20
      · simp [scanString, scanStringFrom, hq, hb, hc] at hs
      have hs1 : scanString (t ++ 0x22 :: r) = .ok (t, r) := by
        have := hs
        rw [List.cons_append, scanString_plain c _ hq hb (by omega)] at this
        exact consRaw_cancel [c] t r _ this
      by_cases h8 : c < 0x80
      · have hstep : unquoteStep c t = some ([c], t) := by
          have h1 : ¬ (c = 0x22 ∨ c < 0x20) := by omega
          simp only [unquoteStep, hb, if_false, h1, h8, if_true]
        exact finish [c] t hstep (le_refl _) hs1
      · have hstep : unquoteStep c t = some (encodeRune (decodeRune (c :: t)).1,
            (c :: t).drop (decodeRune (c :: t)).2) := by
          have h1 : ¬ (c = 0x22 ∨ c < 0x20) := by omega
          simp only [unquoteStep, hb, if_false, h1, h8]
        by_cases h1 : (decodeRune (c :: t)).2 = 1
        · rw [h1, List.drop_one, List.tail_cons] at hstep
          exact finish _ t hstep (le_refl _) hs1
        · obtain ⟨k2, klen, -, -, khigh⟩ := decodeRune_step c t (by omega) h1
          refine finish _ _ hstep ?_ ?_
          · simp only [List.length_drop, List.length_cons]; omega
          · have e1 : (c :: t) ++ 0x22 :: r
                = (c :: t).take (decodeRune (c :: t)).2
                  ++ ((c :: t).drop (decodeRune (c :: t)).2 ++ 0x22 :: r) := by
              rw [← List.append_assoc, List.take_append_drop]
            have e2 : (Except.ok (c :: t, r) : Except DecodeError (GoString × GoString))
                = .ok ((c :: t).take (decodeRune (c :: t)).2
                    ++ (c :: t).drop (decodeRune (c :: t)).2, r) := by
              rw [List.take_append_drop]
            have := hs
            rw [e1, scanString_of_high _ khigh, e2] at this
            exact consRaw_cancel _ _ r _ this

theorem unquote_of_scanString (s raw r : GoString) (h : scanString s = .ok (raw, r)) :
    ∃ out, unquote raw = some out :=
  unquoteLoop_of_scanned raw.length raw r (le_refl _) (scanString_raw s raw r h) _ (le_refl _)

theorem Consumes.error {α : Type} (n : Nat) (e : DecodeError) (h : e.real = true) :
    Consumes (α := α) n (.error e) := by
  constructor
  · intro e0 h1; injection h1 with h2; rw [← h2]; exact h
  · intro a r h1; cases h1

theorem Consumes.ok {α : Type} (n : Nat) (a : α) (r : GoString) (h : r.length < n) :
    Consumes n (.ok (a, r)) := by
  constructor
  · intro e0 h1; cases h1
  · intro a0 r0 h1
    injection h1 with h2
    injection h2 with h3 h4
    rw [← h4]; exact h

theorem parse_consumes (fuel : Nat) :
    (∀ d s, 2 * s.length + 1 ≤ fuel → Consumes s.length (parseValue fuel d s))
    ∧ (∀ d s, 2 * s.length + 1 ≤ fuel → Consumes s.length (parseMembers fuel d s))
    ∧ (∀ d s, 2 * s.length + 2 ≤ fuel → Consumes s.length (parseElements fuel d s)) := by
  induction fuel with
  | zero =>
    refine ⟨?_, ?_, ?_⟩ <;> intro d s h <;> omega
  | succ fuel ih =>
    obtain ⟨ihV, ihM, ihE⟩ := ih
    refine ⟨?_, ?_, ?_⟩
    · intro d s hf
      simp only [parseValue]
      split
      · exact Consumes.error _ _ rfl
      · rename_i c rest hsk
        have hrest := skipSpace_eq_cons s c rest hsk
        split_ifs
        · exact Consumes.error _ _ rfl
        · split
          · exact Consumes.error _ _ rfl
          · rename_i c1 rest1 hsk1
            have hrest1 := skipSpace_eq_cons rest c1 rest1 hsk1
            split_ifs
            · exact Consumes.ok _ _ _ (by omega)
            · have hg := ihM (d + 1) (c1 :: rest1) (by simp only [List.length_cons]; omega)
              split
              · rename_i ms r heq
                exact Consumes.ok _ _ _ (by have := hg.2 _ _ heq; simp only [List.length_cons] at this; omega)
              · rename_i err heq
                exact Consumes.error _ _ (hg.1 _ heq)
        · exact Consumes.error _ _ rfl
        · split
          · exact Consumes.error _ _ rfl
          · rename_i c1 rest1 hsk1
            have hrest1 := skipSpace_eq_cons rest c1 rest1 hsk1
            split_ifs
            · exact Consumes.ok _ _ _ (by omega)
            · have hg := ihE (d + 1) (c1 :: rest1) (by simp only [List.length_cons]; omega)
              split
              · rename_i ms r heq
                exact Consumes.ok _ _ _ (by have := hg.2 _ _ heq; simp only [List.length_cons] at this; omega)
              · rename_i err heq
                exact Consumes.error _ _ (hg.1 _ heq)
        · split
          · rename_i raw r heq
            have := scanStringFrom_length _ _ _ _ heq
            split
            · exact Consumes.ok _ _ _ (by omega)
            · rename_i hunq
              obtain ⟨out, ho⟩ := unquote_of_scanString _ _ _ heq
              rw [ho] at hunq
              cases hunq
          · rename_i err heq
            exact Consumes.error _ _ (scanStringFrom_real _ _ _ heq)
        · split
          · rename_i r heq
            have := scanNumber_length _ _ _ heq
            exact Consumes.ok _ _ _ (by omega)
          · rename_i err heq
            exact Consumes.error _ _ (scanNumber_real _ _ _ heq)
        · split
          · rename_i r heq
            have := scanLiteral_length _ _ _ _ heq
            exact Consumes.ok _ _ _ (by omega)
          · rename_i err heq
            exact Consumes.error _ _ (scanLiteral_real _ _ _ _ heq)
        · split
          · rename_i r heq
            have := scanLiteral_length _ _ _ _ heq
            exact Consumes.ok _ _ _ (by omega)
          · rename_i err heq
            exact Consumes.error _ _ (scanLiteral_real _ _ _ _ heq)
        · split
          · rename_i r heq
            have := scanLiteral_length _ _ _ _ heq
            exact Consumes.ok _ _ _ (by omega)
          · rename_i err heq
            exact Consumes.error _ _ (scanLiteral_real _ _ _ _ heq)
        · exact Consumes.error _ _ rfl
    · intro d s hf
      simp only [parseMembers]
      split
      · exact Consumes.error _ _ rfl
      · rename_i c rest hsk
        have hrest := skipSpace_eq_cons s c rest hsk
        split_ifs
        · exact Consumes.error _ _ rfl
        · split
          · rename_i err heq
            exact Consumes.error _ _ (scanStringFrom_real _ _ _ heq)
          · rename_i rawKey r1 heq
            have hr1 := scanStringFrom_length _ _ _ _ heq
            split
            · exact Consumes.error _ _ rfl
            · rename_i c2 r2 hsk2
              have hr2 := skipSpace_eq_cons r1 c2 r2 hsk2
              split_ifs
              · exact Consumes.error _ _ rfl
              · have hg := ihV d r2 (by omega)
                split
                · rename_i err heq2
                  exact Consumes.error _ _ (hg.1 _ heq2)
                · rename_i v r3 heq2
                  have hr3 := hg.2 _ _ heq2
                  split
                  · rename_i hunq
                    obtain ⟨out, ho⟩ := unquote_of_scanString _ _ _ heq
                    rw [ho] at hunq
                    cases hunq
                  · split
                    · exact Consumes.error _ _ rfl
                    · rename_i c3 r4 hsk4
                      have hr4 := skipSpace_eq_cons r3 c3 r4 hsk4
                      split_ifs
                      · have hg2 := ihM d r4 (by omega)
                        split
                        · rename_i ms r5 heq5
                          exact Consumes.ok _ _ _ (by have := hg2.2 _ _ heq5; omega)
                        · rename_i err heq5
                          exact Consumes.error _ _ (hg2.1 _ heq5)
                      · exact Consumes.ok _ _ _ (by omega)
                      · exact Consumes.error _ _ rfl
    · intro d s hf
      simp only [parseElements]
      have hg := ihV d s (by omega)
      split
      · rename_i err heq
        exact Consumes.error _ _ (hg.1 _ heq)
      · rename_i v r1 heq
        have hr1 := hg.2 _ _ heq
        split
        · exact Consumes.error _ _ rfl
        · rename_i c r2 hsk
          have hr2 := skipSpace_eq_cons r1 c r2 hsk
          split_ifs
          · have hg2 := ihE d r2 (by omega)
            split
            · rename_i xs r3 heq3
              exact Consumes.ok _ _ _ (by have := hg2.2 _ _ heq3; omega)
            · rename_i err heq3
              exact Consumes.error _ _ (hg2.1 _ heq3)
          · exact Consumes.ok _ _ _ (by omega)
          · exact Consumes.error _ _ rfl

theorem readValue_real (body : GoString) (e : DecodeError)
    (h : readValue body = .error e) : e.real = true := by
  unfold readValue at h
  split at h
  · simp only [Except.error.injEq] at h; subst h; rfl
  · have hg := (parse_consumes (2 * body.length + 2)).1 0 body (by omega)
    split at h
    · simp at h
    · rename_i err heq
      simp only [Except.error.injEq] at h
      subst h
      exact hg.1 _ heq

/-- The reader never runs out of its budget, and a scanned string literal always
unquotes: `Decode` returns Go's errors only. -/
theorem readValue_ne_outOfFuel (body : GoString) :
    readValue body ≠ .error .outOfFuel ∧ readValue body ≠ .error .phase := by
  constructor <;> intro h <;> have := readValue_real body _ h <;> simp [DecodeError.real] at this

theorem validLoop_fuel (n : Nat) : ∀ (m : Nat) (s : GoString), s.length ≤ n → s.length ≤ m →
    validLoop n s = validLoop m s := by
  induction n with
  | zero =>
    intro m s hn hm
    have : s = [] := by simpa using hn
    subst this
    cases m <;> simp [validLoop]
  | succ n ih =>
    intro m s hn hm
    rcases s with _ | ⟨c, rest⟩
    · cases m <;> simp [validLoop]
    · obtain ⟨m, rfl⟩ : ∃ k, m = k + 1 := ⟨m - 1, by simp at hm; omega⟩
      simp only [List.length_cons, Nat.add_le_add_iff_right] at hn hm
      simp only [validLoop]
      by_cases hc : c < 0x80
      · simp only [hc, if_true]; exact ih m rest hn hm
      · simp only [hc, if_false]
        by_cases h1 : (decodeRune (c :: rest)).2 = 1
        · simp only [h1, if_true]
        · simp only [h1, if_false]
          obtain ⟨k2, klen, -, -, -⟩ := decodeRune_step c rest (by omega) h1
          apply ih <;> (simp only [List.length_drop, List.length_cons]; omega)

theorem utf8Valid_append (a b : GoString) (ha : utf8Valid a = true) (hb : utf8Valid b = true) :
    utf8Valid (a ++ b) = true := by
  have key : ∀ (n : Nat) (a : GoString), a.length ≤ n → validLoop n a = true →
      validLoop (n + b.length) (a ++ b) = true := by
    intro n
    induction n with
    | zero =>
      intro a hn _
      have : a = [] := by simpa using hn
      subst this
      simpa [utf8Valid] using hb
    | succ n ih =>
      intro a hn hv
      rcases a with _ | ⟨c, rest⟩
      · rw [List.nil_append, validLoop_fuel _ b.length b (by omega) (le_refl _)]
        exact hb
      · simp only [List.length_cons, Nat.add_le_add_iff_right] at hn
        have e : n + 1 + b.length = (n + b.length) + 1 := by omega
        rw [e, List.cons_append]
        simp only [validLoop] at hv ⊢
        by_cases hc : c < 0x80
        · simp only [hc, if_true] at hv ⊢; exact ih rest hn hv
        · simp only [hc, if_false] at hv ⊢
          by_cases h1 : (decodeRune (c :: rest)).2 = 1
          · simp [h1] at hv
          · simp only [h1, if_false] at hv
            obtain ⟨k2, klen, -, kdec, -⟩ := decodeRune_step c rest (by omega) h1
            have hd : decodeRune (c :: (rest ++ b)) = decodeRune (c :: rest) := by
              have := kdec ((c :: rest).drop (decodeRune (c :: rest)).2 ++ b)
              rw [← List.append_assoc, List.take_append_drop, List.cons_append] at this
              exact this
            rw [hd]
            simp only [h1, if_false]
            rw [← List.cons_append, List.drop_append_of_le_length klen]
            apply ih
            · simp only [List.length_drop, List.length_cons]; omega
            · exact hv
  have := key a.length a (le_refl _) ha
  simpa [utf8Valid] using this

theorem utf8Valid_ascii (c : Nat) (h : c < 0x80) : utf8Valid [c] = true := by
  simp [utf8Valid, validLoop, h]

theorem utf8Valid_encodeRune (r : Nat) : utf8Valid (encodeRune r) = true := by
  unfold encodeRune
  split_ifs with h1 h2 h3 h4
  · exact utf8Valid_ascii r (by omega)
  · have a1 : ¬ (0xC0 + r / 0x40 < 0x80) := by omega
    have a2 : ¬ (0xC0 + r / 0x40 < 0xC2) := by omega
    have a3 : ¬ (0xF5 ≤ 0xC0 + r / 0x40) := by omega
    have a4 : ¬ (0x80 + r % 0x40 < acceptLo (0xC0 + r / 0x40)
        ∨ acceptHi (0xC0 + r / 0x40) < 0x80 + r % 0x40) := by
      unfold acceptLo acceptHi; split_ifs <;> omega
    have a5 : 0xC0 + r / 0x40 < 0xE0 := by omega
    simp [utf8Valid, validLoop, decodeRune, a1, a2, a3, a4, a5]
  · decide
  · have a1 : ¬ (0xE0 + r / 0x1000 < 0x80) := by omega
    have a2 : ¬ (0xE0 + r / 0x1000 < 0xC2) := by omega
    have a3 : ¬ (0xF5 ≤ 0xE0 + r / 0x1000) := by omega
    have a4 : ¬ (0x80 + r / 0x40 % 0x40 < acceptLo (0xE0 + r / 0x1000)
        ∨ acceptHi (0xE0 + r / 0x1000) < 0x80 + r / 0x40 % 0x40) := by
      unfold acceptLo acceptHi; split_ifs <;> omega
    have a5 : ¬ (0xE0 + r / 0x1000 < 0xE0) := by omega
    have a6 : ¬ (0x80 + r % 0x40 < 0x80 ∨ 0xBF < 0x80 + r % 0x40) := by omega
    have a7 : 0xE0 + r / 0x1000 < 0xF0 := by omega
    have b6 : ¬ (0xBF < 0x80 + r % 0x40) := by omega
    simp [utf8Valid, validLoop, decodeRune, a1, a2, a3, a4, a5, a6, a7, b6]
  · have a1 : ¬ (0xF0 + r / 0x40000 < 0x80) := by omega
    have a2 : ¬ (0xF0 + r / 0x40000 < 0xC2) := by omega
    have a3 : ¬ (0xF5 ≤ 0xF0 + r / 0x40000) := by omega
    have a4 : ¬ (0x80 + r / 0x1000 % 0x40 < acceptLo (0xF0 + r / 0x40000)
        ∨ acceptHi (0xF0 + r / 0x40000) < 0x80 + r / 0x1000 % 0x40) := by
      unfold acceptLo acceptHi; split_ifs <;> omega
    have a5 : ¬ (0xF0 + r / 0x40000 < 0xE0) := by omega
    have a6 : ¬ (0x80 + r / 0x40 % 0x40 < 0x80 ∨ 0xBF < 0x80 + r / 0x40 % 0x40) := by omega
    have a7 : ¬ (0xF0 + r / 0x40000 < 0xF0) := by omega
    have a8 : ¬ (0x80 + r % 0x40 < 0x80 ∨ 0xBF < 0x80 + r % 0x40) := by omega
    have b6 : ¬ (0xBF < 0x80 + r / 0x40 % 0x40) := by omega
    have b8 : ¬ (0xBF < 0x80 + r % 0x40) := by omega
    simp [utf8Valid, validLoop, decodeRune, a1, a2, a3, a4, a5, a6, a7, a8, b6, b8]

theorem unquoteStep_valid (c : Nat) (rest out rem : GoString)
    (h : unquoteStep c rest = some (out, rem)) : utf8Valid out = true := by
  unfold unquoteStep at h
  by_cases h1 : c = 0x5C
  · simp only [h1, if_true] at h
    rcases rest with _ | ⟨e, rest1⟩
    · simp at h
    · simp only at h
      split_ifs at h
      any_goals (simp only [Option.some.injEq, Prod.mk.injEq] at h; rw [← h.1]; decide)
      · simp only [Option.some.injEq, Prod.mk.injEq] at h
        rw [← h.1]
        exact utf8Valid_ascii e (by omega)
      · split at h
        · simp at h
        · split_ifs at h <;>
            (simp only [Option.some.injEq, Prod.mk.injEq] at h; rw [← h.1]
             exact utf8Valid_encodeRune _)
  · simp only [h1, if_false] at h
    split_ifs at h
    · simp only [Option.some.injEq, Prod.mk.injEq] at h
      rw [← h.1]
      exact utf8Valid_ascii c (by omega)
    · simp only [Option.some.injEq, Prod.mk.injEq] at h
      rw [← h.1]
      exact utf8Valid_encodeRune _

theorem unquoteLoop_valid (f : Nat) : ∀ (s out : GoString), unquoteLoop f s = some out →
    utf8Valid out = true := by
  induction f with
  | zero =>
    intro s out h
    simp only [unquoteLoop] at h
    split_ifs at h
    simp only [Option.some.injEq] at h
    subst h
    rfl
  | succ f ih =>
    intro s out h
    rcases s with _ | ⟨c, rest⟩
    · simp only [unquoteLoop, Option.some.injEq] at h
      subst h
      rfl
    · simp only [unquoteLoop] at h
      split at h
      · simp at h
      · rename_i o r hstep
        cases hrec : unquoteLoop f r with
        | none => simp [hrec] at h
        | some t =>
          simp only [hrec, Option.map_some', Option.some.injEq] at h
          rw [← h]
          exact utf8Valid_append _ _ (unquoteStep_valid _ _ _ _ hstep) (ih _ _ hrec)

theorem unquote_valid (raw out : GoString) (h : unquote raw = some out) :
    utf8Valid out = true :=
  unquoteLoop_valid _ _ _ h

theorem parseValue_string_valid (fuel d : Nat) (s : GoString) (str r : GoString)
    (h : parseValue fuel d s = .ok (.string str, r)) : utf8Valid str = true := by
  cases fuel with
  | zero => simp [parseValue] at h
  | succ fuel =>
    simp only [parseValue] at h
    repeat' split at h
    all_goals first
      | (simp at h; done)
      | (simp only [Except.ok.injEq, Prod.mk.injEq, JVal.string.injEq] at h
         rw [← h.1]
         exact unquote_valid _ _ ‹_›)

theorem parseMembers_valid (fuel : Nat) : ∀ (d : Nat) (s : GoString)
    (ms : List (GoString × JVal)) (r : GoString), parseMembers fuel d s = .ok (ms, r) →
    ∀ m ∈ ms, ∀ str, m.2 = .string str → utf8Valid str = true := by
  induction fuel with
  | zero => intro d s ms r h; simp [parseMembers] at h
  | succ fuel ih =>
    intro d s ms r h
    simp only [parseMembers] at h
    repeat' split at h
    all_goals first
      | (simp at h; done)
      | (simp only [Except.ok.injEq, Prod.mk.injEq] at h
         intro m hm str hstr
         rw [← h.1] at hm
         rcases List.mem_cons.mp hm with rfl | hm
         · simp only at hstr
           subst hstr
           exact parseValue_string_valid _ _ _ _ _ ‹_›
         · first
             | exact ih _ _ _ _ ‹_› m hm str hstr
             | simp at hm)

theorem parseValue_object_valid (fuel d : Nat) (s : GoString) (ms : List (GoString × JVal))
    (r : GoString) (h : parseValue fuel d s = .ok (.object ms, r)) :
    ∀ m ∈ ms, ∀ str, m.2 = .string str → utf8Valid str = true := by
  cases fuel with
  | zero => simp [parseValue] at h
  | succ fuel =>
    simp only [parseValue] at h
    repeat' split at h
    all_goals first
      | (simp at h; done)
      | (simp only [Except.ok.injEq, Prod.mk.injEq, JVal.object.injEq] at h
         rw [← h.1]
         first
           | exact parseMembers_valid _ _ _ _ _ ‹_›
           | (intro m hm; simp at hm))

theorem isInputObject_valid (body s : GoString) (h : IsInputObject body s) :
    utf8Valid s = true := by
  unfold IsInputObject readValue at h
  split at h
  · simp at h
  · split at h
    · rename_i v r hp
      simp only [Except.ok.injEq] at h
      subst h
      exact parseValue_object_valid _ _ _ _ _ hp _ (List.mem_singleton.mpr rfl) s rfl
    · simp at h

/-! ## Lemmas: storing into structs, errors, the response writer -/

theorem DecodeError.Error_ne_nil (e : DecodeError) : e.Error ≠ [] := by
  cases e with
  | eof => decide
  | unexpectedEOF => decide
  | syntaxError c context =>
    simp only [DecodeError.Error, List.append_assoc]
    exact List.append_ne_nil_of_left_ne_nil (by decide) _
  | unmarshalType value struct field type =>
    simp only [DecodeError.Error]
    split_ifs <;>
      (simp only [List.append_assoc]; exact List.append_ne_nil_of_left_ne_nil (by decide) _)
  | phase => decide
  | outOfFuel => decide

theorem foldl_storeMember_error {α : Type} (sn : GoString) (fields : List (Field α)) :
    ∀ (ms : List (GoString × JVal)) (st : α × Option DecodeError),
      (ms.foldl (storeMember sn fields) st).2.isSome
        = (st.2.isSome || ms.any (fun m => (findField fields m.1).isSome && !storable m.2)) := by
  intro ms
  induction ms with
  | nil => intro st; simp
  | cons m ms ih =>
    intro st
    rw [List.foldl_cons, ih, List.any_cons]
    obtain ⟨k, v⟩ := m
    obtain ⟨a, saved⟩ := st
    unfold storeMember
    cases hf : findField fields k with
    | none => simp
    | some f =>
      cases v <;> cases saved <;> simp [storable, saveError]

theorem foldl_storeMember_skip {α : Type} (sn : GoString) (fields : List (Field α)) :
    ∀ (ms : List (GoString × JVal)) (st : α × Option DecodeError),
      (∀ m ∈ ms, findField fields m.1 = none) →
      ms.foldl (storeMember sn fields) st = st := by
  intro ms
  induction ms with
  | nil => intro st _; rfl
  | cons m ms ih =>
    intro st h
    rw [List.foldl_cons]
    have hm : storeMember sn fields st m = st := by
      unfold storeMember
      rw [h m (by simp)]
    rw [hm]
    exact ih st (fun x hx => h x (by simp [hx]))

theorem foldl_storeMember_real {α : Type} (sn : GoString) (fields : List (Field α)) :
    ∀ (ms : List (GoString × JVal)) (st : α × Option DecodeError),
      (∀ e, st.2 = some e → e.real = true) →
      ∀ e, (ms.foldl (storeMember sn fields) st).2 = some e → e.real = true := by
  intro ms
  induction ms with
  | nil => intro st h e he; exact h e he
  | cons m ms ih =>
    intro st h
    rw [List.foldl_cons]
    apply ih
    obtain ⟨k, v⟩ := m
    obtain ⟨a, saved⟩ := st
    intro e he
    unfold storeMember at he
    cases hf : findField fields k with
    | none => rw [hf] at he; exact h e he
    | some f =>
      rw [hf] at he
      cases saved with
      | some e0 => cases v <;> simp [saveError] at he <;> subst he <;> exact h _ rfl
      | none =>
        cases v <;> simp [saveError] at he <;> subst he <;> rfl

/-- The errors `decodePrompt` returns are Go's: never the panic, never the budget
error. -/
theorem decodePrompt_real (body : GoString) (e : DecodeError)
    (h : decodePrompt body = .error e) : e.real = true := by
  unfold decodePrompt at h
  split at h
  · rename_i err heq
    simp only [Except.error.injEq] at h
    subst h
    exact readValue_real body _ heq
  · rename_i v heq
    unfold unmarshalStruct at h
    split at h
    · split at h
      · rename_i ms _ a err hfold
        simp only [Except.error.injEq] at h
        subst h
        refine foldl_storeMember_real (ascii "Prompt") promptFields ms
          (({ Input := [] } : Prompt), none) ?_ _ ?_
        · intro e he; simp at he
        · rw [hfold]
      · simp at h
    · simp at h
    · simp only [Except.error.injEq] at h; subst h; rfl

theorem unmarshalStruct_rejected {α : Type} (sn tn : GoString) (fields : List (Field α))
    (zero : α) (v : JVal) (h : rejected fields v = true) :
    ∃ e, unmarshalStruct sn tn fields zero v = .error e := by
  cases v with
  | object ms =>
    have hs := foldl_storeMember_error sn fields ms (zero, none)
    simp only [rejected] at h
    rw [h] at hs
    simp only [unmarshalStruct]
    cases hr : ms.foldl (storeMember sn fields) (zero, none) with
    | mk a saved =>
      rw [hr] at hs
      cases saved with
      | none => simp at hs
      | some err => exact ⟨err, rfl⟩
  | null => simp [rejected] at h
  | bool b => exact ⟨_, rfl⟩
  | number => exact ⟨_, rfl⟩
  | string s => exact ⟨_, rfl⟩
  | array xs => exact ⟨_, rfl⟩

theorem unmarshalStruct_accepted {α : Type} (sn tn : GoString) (fields : List (Field α))
    (zero : α) (v : JVal) (h : rejected fields v = false) :
    ∃ a, unmarshalStruct sn tn fields zero v = .ok a := by
  cases v with
  | object ms =>
    have hs := foldl_storeMember_error sn fields ms (zero, none)
    simp only [rejected] at h
    rw [h] at hs
    simp only [unmarshalStruct]
    cases hr : ms.foldl (storeMember sn fields) (zero, none) with
    | mk a saved =>
      rw [hr] at hs
      cases saved with
      | none => exact ⟨a, rfl⟩
      | some err => simp at hs
  | null => exact ⟨zero, rfl⟩
  | bool b => simp [rejected] at h
  | number => simp [rejected] at h
  | string s => simp [rejected] at h
  | array xs => simp [rejected] at h

theorem httpError_fresh (msg : GoString) (code : Nat) :
    (httpError .fresh msg code).status = some code
      ∧ (httpError .fresh msg code).body = msg ++ [0x0A]
      ∧ (httpError .fresh msg code).writes = 1 := by
  simp [httpError, ResponseWriter.Write, ResponseWriter.WriteHeader, ResponseWriter.SetHeader,
    ResponseWriter.fresh]

theorem run_of_decode_error (be : Backend) (body : GoString) (e : DecodeError)
    (h : decodePrompt body = .error e) :
    run be .fresh body
      = { w := httpError .fresh e.Error StatusBadRequest, calls := [], exit := .returned } := by
  simp only [run, h]

theorem run_calls_of_decode_ok (be : Backend) (body : GoString) (p : Prompt)
    (h : decodePrompt body = .ok p) :
    (run be .fresh body).calls ≠ [] ∧ (run be .fresh body).w.status ≠ some StatusBadRequest := by
  simp only [run, h]
  cases be.construct (ascii "llama3") with
  | some err => simp [ResponseWriter.fresh]
  | none =>
    cases be.complete (ascii "llama3") p.Input with
    | error err => simp [ResponseWriter.fresh]
    | ok c =>
      simp [ResponseWriter.Write, ResponseWriter.WriteHeader, ResponseWriter.fresh, StatusOK,
        StatusBadRequest]

theorem decodePrompt_of_isInputObject (body s : GoString) (h : IsInputObject body s) :
    decodePrompt body = .ok ⟨s⟩ := by
  unfold decodePrompt
  rw [h]
  rfl

/-- Every valid UTF-8 string has a request body that is the JSON object with
that `input`: the one `json.Marshal` writes. -/
theorem isInputObject_marshalPrompt (s : GoString) (h : utf8Valid s = true) :
    IsInputObject (marshalPrompt ⟨s⟩) s := by
  have e := readValue_marshalPrompt s []
  rw [List.append_nil, coerceUTF8_of_valid s h] at e
  exact e

theorem route_post_run :
    setupRouter.routeHTTP (ascii "POST") (ascii "/run") = .handler .run := by
  decide

/-- C1: for every string `s` and every backend whose client construction
succeeds and whose completion call on prompt `s` returns `c`, the run handler on
a request whose body is the JSON object with `input` = `s` calls the backend
exactly once, with model `llama3` and prompt `s`, and writes exactly one
response, with status 200, whose body is the JSON encoding of
`PromptResponse` with input `s` and response `c` (as `Encoder.Encode` writes
it, a newline after it), then returns; decoding that body gives back the
input `s` exactly. -/
theorem run_wellFormed (be : Backend) (body s c : GoString)
    (hbody : IsInputObject body s)
    (hnew : be.construct (ascii "llama3") = none)
    (hgen : be.complete (ascii "llama3") s = .ok c) :
    (run be .fresh body).calls
        = [.construct (ascii "llama3"), .complete (ascii "llama3") s]
      ∧ (run be .fresh body).exit = .returned
      ∧ (run be .fresh body).w.writes = 1
      ∧ (run be .fresh body).w.status = some 200
      ∧ (run be .fresh body).w.body = marshalPromptResponse ⟨s, c⟩ ++ [0x0A]
      ∧ (run be .fresh body).response = some (200, encodePromptResponse ⟨s, c⟩)
      ∧ ∃ r, decodePromptResponse (run be .fresh body).w.body = .ok ⟨s, r⟩ := by
  have hd := decodePrompt_of_isInputObject body s hbody
  have hs : coerceUTF8 s = s := coerceUTF8_of_valid s (isInputObject_valid body s hbody)
  have hrun : run be .fresh body =
      { w := ResponseWriter.fresh.Write (encodePromptResponse ⟨s, c⟩),
        calls := [.construct (ascii "llama3"), .complete (ascii "llama3") s],
        exit := .returned } := by
    simp only [run, hd, hnew, hgen]
  rw [hrun]
  refine ⟨rfl, rfl, rfl, rfl, ?_, rfl, ?_⟩
  · simp [ResponseWriter.Write, ResponseWriter.WriteHeader, ResponseWriter.fresh,
      encodePromptResponse]
  · refine ⟨coerceUTF8 c, ?_⟩
    have : (ResponseWriter.fresh.Write (encodePromptResponse ⟨s, c⟩)).body
        = encodePromptResponse ⟨s, c⟩ := by
      simp [ResponseWriter.Write, ResponseWriter.WriteHeader, ResponseWriter.fresh]
    simp only [this]
    rw [decodePromptResponse_encode, hs]

/-- Witness of C1, the spec's example: the body `{"input":"hello"}` and a backend
that answers `hi there` give status 200 and the body
`{"input":"hello","response":"hi there"}` (and a newline). -/
theorem run_wellFormed_witness :
    IsInputObject (ascii "\x7b\"input\":\"hello\"\x7d") (ascii "hello")
      ∧ (run (stubBackend (ascii "hi there")) .fresh
          (ascii "\x7b\"input\":\"hello\"\x7d")).calls
          = [.construct (ascii "llama3"), .complete (ascii "llama3") (ascii "hello")]
      ∧ (run (stubBackend (ascii "hi there")) .fresh
          (ascii "\x7b\"input\":\"hello\"\x7d")).response
          = some (200, ascii "\x7b\"input\":\"hello\",\"response\":\"hi there\"\x7d\n") :=
  have h := run_wellFormed (stubBackend (ascii "hi there"))
    (ascii "\x7b\"input\":\"hello\"\x7d") (ascii "hello") (ascii "hi there") rfl rfl rfl
  ⟨rfl, h.1, h.2.2.2.2.2.1⟩

/-- C2: for every request body on which decoding into `Prompt` fails with error
`e`, the run handler answers status 400 with `e`'s message (and a newline) as
body, returns without constructing the inference client or calling the
completion, and does not end the process: a listening server that handles the
request as `POST /run` is still listening afterwards. -/
theorem run_decodeError (a : Assets) (be : Backend) (body : GoString) (e : DecodeError)
    (h : decodePrompt body = .error e) :
    (run be .fresh body).w.status = some StatusBadRequest
      ∧ (run be .fresh body).w.body = e.Error ++ [0x0A]
      ∧ (run be .fresh body).response = some (400, e.Error ++ [0x0A])
      ∧ (run be .fresh body).calls = []
      ∧ (run be .fresh body).exit = .returned
      ∧ ∀ p : Process, p.phase = .Listening → p.accepting = true →
          (step a be p (.request (ascii "POST") (ascii "/run") body)).phase = .Listening
            ∧ (step a be p (.request (ascii "POST") (ascii "/run") body)).accepting = true := by
  have hrun := run_of_decode_error be body e h
  obtain ⟨h1, h2, -⟩ := httpError_fresh e.Error StatusBadRequest
  rw [hrun]
  refine ⟨h1, h2, ?_, rfl, rfl, ?_⟩
  · simp only [Outcome.response, h1, h2]
    rfl
  · intro p hp ha
    simp only [step, hp, ha, and_self, if_true, route_post_run, hrun, afterHandler]

/-- Witness of C2: a body that ends inside the object is answered 400 with the
message `unexpected EOF`. -/
theorem run_decodeError_witness :
    decodePrompt (ascii "\x7b\"input\":") = .error .unexpectedEOF
      ∧ (run (stubBackend (ascii "hi there")) .fresh (ascii "\x7b\"input\":")).response
          = some (400, ascii "unexpected EOF\n")
      ∧ (run (stubBackend (ascii "hi there")) .fresh (ascii "\x7b\"input\":")).calls = [] :=
  have h := run_decodeError noAssets (stubBackend (ascii "hi there")) (ascii "\x7b\"input\":")
    .unexpectedEOF rfl
  ⟨rfl, h.2.2.1, h.2.2.2.1⟩

/-- C3, refuted as stated: the body `{}` (an object with no `input` field) is not
answered 400: it decodes to the empty prompt, the backend is called with it,
and the answer is status 200. -/
theorem run_emptyObject_accepted :
    decodePrompt (ascii "\x7b\x7d") = .ok ⟨[]⟩
      ∧ (run (stubBackend (ascii "hi there")) .fresh (ascii "\x7b\x7d")).calls
          = [.construct (ascii "llama3"), .complete (ascii "llama3") []]
      ∧ (run (stubBackend (ascii "hi there")) .fresh (ascii "\x7b\x7d")).response
          = some (200, ascii "\x7b\"input\":\"\",\"response\":\"hi there\"\x7d\n") :=
  ⟨rfl, rfl, rfl⟩

/-- C3, amended: for every request body whose first JSON value does not scan
(invalid or truncated JSON), or is neither an object nor `null`, or is an object
with a member that selects the `input` field and holds neither a string nor
`null`, `POST /run` answers status 400 with a non-empty error message and never
calls the backend.  Every other body is accepted: it decodes, the backend is
called and the answer is not 400; an object with no `input` member decodes to
the empty prompt. -/
theorem run_malformed (be : Backend) (body : GoString) :
    (((∃ e, readValue body = .error e)
        ∨ ∃ v, readValue body = .ok v ∧ rejected promptFields v = true) →
      ∃ msg, msg ≠ []
        ∧ (run be .fresh body).response = some (400, msg ++ [0x0A])
        ∧ (run be .fresh body).calls = []
        ∧ (run be .fresh body).exit = .returned)
    ∧ (∀ v, readValue body = .ok v → rejected promptFields v = false →
        (∃ p, decodePrompt body = .ok p)
          ∧ (run be .fresh body).calls ≠ []
          ∧ (run be .fresh body).w.status ≠ some 400)
    ∧ (∀ ms, readValue body = .ok (.object ms) →
        (∀ m ∈ ms, findField promptFields m.1 = none) →
        decodePrompt body = .ok ⟨[]⟩) := by
  refine ⟨?_, ?_, ?_⟩
  · intro h
    have hdec : ∃ e, decodePrompt body = .error e := by
      rcases h with ⟨e, he⟩ | ⟨v, hv, hr⟩
      · exact ⟨e, by simp only [decodePrompt, he]⟩
      · obtain ⟨e, he⟩ := unmarshalStruct_rejected (ascii "Prompt") (ascii "main.Prompt")
          promptFields { Input := [] } v hr
        exact ⟨e, by simp only [decodePrompt, hv, he]⟩
    obtain ⟨e, he⟩ := hdec
    obtain ⟨h1, h2, -⟩ := httpError_fresh e.Error StatusBadRequest
    refine ⟨e.Error, e.Error_ne_nil, ?_, ?_, ?_⟩
    · rw [run_of_decode_error be body e he]
      simp only [Outcome.response, h1, h2]
      rfl
    · rw [run_of_decode_error be body e he]
    · rw [run_of_decode_error be body e he]
  · intro v hv hr
    obtain ⟨p, hp⟩ := unmarshalStruct_accepted (ascii "Prompt") (ascii "main.Prompt")
      promptFields { Input := [] } v hr
    have hd : decodePrompt body = .ok p := by simp only [decodePrompt, hv, hp]
    exact ⟨⟨p, hd⟩, run_calls_of_decode_ok be body p hd⟩
  · intro ms hv hskip
    simp only [decodePrompt, hv, unmarshalStruct,
      foldl_storeMember_skip (ascii "Prompt") promptFields ms _ hskip]

/-- Witness of C3 as amended: a number as `input` is answered 400 and the backend
is not called. -/
theorem run_malformed_witness :
    (∃ msg, msg ≠ []
      ∧ (run (stubBackend (ascii "hi there")) .fresh (ascii "\x7b\"input\":5\x7d")).response
          = some (400, msg ++ [0x0A])
      ∧ (run (stubBackend (ascii "hi there")) .fresh (ascii "\x7b\"input\":5\x7d")).calls = []
      ∧ (run (stubBackend (ascii "hi there")) .fresh (ascii "\x7b\"input\":5\x7d")).exit
          = .returned)
    ∧ decodePrompt (ascii "\x7b\"other\":true\x7d") = .ok ⟨[]⟩ :=
  ⟨(run_malformed (stubBackend (ascii "hi there")) (ascii "\x7b\"input\":5\x7d")).1
      (Or.inr ⟨.object [(ascii "input", .number)], rfl, rfl⟩),
    (run_malformed (stubBackend (ascii "hi there")) (ascii "\x7b\"other\":true\x7d")).2.2
      [(ascii "other", .bool true)] rfl
      (by intro m hm; simp only [List.mem_singleton] at hm; subst hm; rfl)⟩

/-- C4: for every request whose body decodes, if the construction of the inference
client fails or the completion call returns an error, the run handler writes
no response at all (the writer is untouched, the client gets neither a 200 nor
a 5xx) and ends in `log.Fatal`, which ends the process: a listening server that
handles the request as `POST /run` is stopped.  Both failures end the same
way. -/
theorem run_backendFailure (a : Assets) (be : Backend) (body : GoString) (prompt : Prompt)
    (hdec : decodePrompt body = .ok prompt)
    (hfail : (∃ err, be.construct (ascii "llama3") = some err)
      ∨ ∃ err, be.complete (ascii "llama3") prompt.Input = .error err) :
    (run be .fresh body).w = .fresh
      ∧ (run be .fresh body).response = none
      ∧ (∃ msg, (run be .fresh body).exit = .fatal msg)
      ∧ ∀ p : Process, p.phase = .Listening → p.accepting = true →
          (step a be p (.request (ascii "POST") (ascii "/run") body)).phase = .Stopped := by
  have key : ∃ calls msg, run be .fresh body
      = { w := .fresh, calls := calls, exit := .fatal msg } := by
    simp only [run, hdec]
    cases hc : be.construct (ascii "llama3") with
    | some err => exact ⟨_, _, rfl⟩
    | none =>
      rcases hfail with ⟨err, he⟩ | ⟨err, he⟩
      · rw [hc] at he; cases he
      · simp only [he]; exact ⟨_, _, rfl⟩
  obtain ⟨calls, msg, hrun⟩ := key
  rw [hrun]
  refine ⟨rfl, rfl, ⟨msg, rfl⟩, ?_⟩
  intro p hp ha
  simp only [step, hp, ha, and_self, if_true, route_post_run, hrun, afterHandler]

/-- Witness of C4: a backend whose client cannot be constructed; the request
`{"input":"hello"}` gets no response and the process ends. -/
theorem run_backendFailure_witness :
    (run (refusingBackend (ascii "connection refused")) .fresh
        (ascii "\x7b\"input\":\"hello\"\x7d")).response = none
      ∧ ∃ msg, (run (refusingBackend (ascii "connection refused")) .fresh
        (ascii "\x7b\"input\":\"hello\"\x7d")).exit = .fatal msg :=
  have h := run_backendFailure noAssets (refusingBackend (ascii "connection refused"))
    (ascii "\x7b\"input\":\"hello\"\x7d") ⟨ascii "hello"⟩ rfl
    (Or.inl ⟨ascii "connection refused", rfl⟩)
  ⟨h.2.1, h.2.2.1⟩

/-- C5, refuted as stated: the one-byte string `0xFF` (not valid UTF-8) does not
come back: it is encoded as the escape of U+FFFD and decodes to the three bytes
of U+FFFD. -/
theorem roundTrip_invalidByte :
    decodePromptResponse (encodePromptResponse ⟨[0xFF], []⟩) = .ok ⟨[0xEF, 0xBF, 0xBD], []⟩
      ∧ decodePromptResponse (encodePromptResponse ⟨[0xFF], []⟩) ≠ .ok ⟨[0xFF], []⟩ :=
  ⟨rfl, by
    intro h
    have h2 : decodePromptResponse (encodePromptResponse ⟨[0xFF], []⟩)
        = .ok ⟨[0xEF, 0xBF, 0xBD], []⟩ := rfl
    rw [h2] at h
    simp at h⟩

/-- C5, amended: for every pair of valid UTF-8 strings (input, response),
whatever non-ASCII or control characters they hold, encoding the
`PromptResponse` as the handler does and decoding the result into a
`PromptResponse` gives back both strings byte for byte. -/
theorem roundTrip (input response : GoString) (hi : utf8Valid input = true)
    (hr : utf8Valid response = true) :
    decodePromptResponse (encodePromptResponse ⟨input, response⟩) = .ok ⟨input, response⟩ := by
  rw [decodePromptResponse_encode, coerceUTF8_of_valid input hi,
    coerceUTF8_of_valid response hr]

/-- Witness of C5 as amended: an input with U+2028, `<`, a newline, a control
character, an emoji, a quote, a backslash and DEL, and a response with a tab
and `é`. -/
theorem roundTrip_witness :
    decodePromptResponse (encodePromptResponse
        ⟨[0xE2, 0x80, 0xA8, 0x3C, 0x0A, 0x01, 0xF0, 0x9F, 0x98, 0x80, 0x22, 0x5C, 0x7F],
         [0x61, 0x09, 0xC3, 0xA9]⟩)
      = .ok ⟨[0xE2, 0x80, 0xA8, 0x3C, 0x0A, 0x01, 0xF0, 0x9F, 0x98, 0x80, 0x22, 0x5C, 0x7F],
         [0x61, 0x09, 0xC3, 0xA9]⟩ :=
  roundTrip _ _ (by decide) (by decide)
/-! ## The router -/

theorem length_le_of_isPrefixOf : ∀ (pre l : GoString), pre.isPrefixOf l = true →
    pre.length ≤ l.length := by
  intro pre
  induction pre with
  | nil => intro l _; simp
  | cons a pre ih =>
    intro l h
    cases l with
    | nil => simp [List.isPrefixOf] at h
    | cons b l =>
      simp only [List.isPrefixOf, Bool.and_eq_true] at h
      have := ih l h.2
      simp only [List.length_cons]
      omega

theorem eq_append_of_isPrefixOf : ∀ (pre l : GoString), pre.isPrefixOf l = true →
    l = pre ++ l.drop pre.length := by
  intro pre
  induction pre with
  | nil => intro l _; simp
  | cons a pre ih =>
    intro l h
    cases l with
    | nil => simp [List.isPrefixOf] at h
    | cons b l =>
      simp only [List.isPrefixOf, Bool.and_eq_true, beq_iff_eq] at h
      have := ih l h.2
      simp only [List.length_cons, List.drop_succ_cons, List.cons_append]
      rw [← this, h.1]

theorem isPrefixOf_append : ∀ (pre t : GoString), pre.isPrefixOf (pre ++ t) = true := by
  intro pre
  induction pre with
  | nil => intro t; simp [List.isPrefixOf]
  | cons a pre ih => intro t; simp [List.isPrefixOf, ih]

theorem patternMatches_static (path : GoString) :
    patternMatches (ascii "/static/*") path = (ascii "/static/").isPrefixOf path := rfl

theorem patternMatches_root (path : GoString) :
    patternMatches (ascii "/") path = decide (ascii "/" = path) := rfl

theorem patternMatches_run (path : GoString) :
    patternMatches (ascii "/run") path = decide (ascii "/run" = path) := rfl

/-- Trimming `/static/` shortens exactly the strings that start with it. -/
theorem trimLeading_static_lt (s : GoString) :
    (trimLeading (ascii "/static/") s).length < s.length
      ↔ (ascii "/static/").isPrefixOf s = true := by
  have h8 : (ascii "/static/").length = 8 := rfl
  unfold trimLeading
  by_cases hp : (ascii "/static/").isPrefixOf s = true
  · have := length_le_of_isPrefixOf _ _ hp
    simp only [hp, if_true, List.length_drop, h8, iff_true]
    omega
  · simp [hp]

theorem stripPath_static (u : URL) :
    stripPath (ascii "/static/") u =
      if (ascii "/static/").isPrefixOf u.Path = true
          ∧ (u.RawPath = [] ∨ (ascii "/static/").isPrefixOf u.RawPath = true) then
        some { Path := u.Path.drop 8, RawPath := trimLeading (ascii "/static/") u.RawPath }
      else none := by
  have h8 : (ascii "/static/").length = 8 := rfl
  unfold stripPath
  simp only [trimLeading_static_lt]
  by_cases hp : (ascii "/static/").isPrefixOf u.Path = true
  · by_cases hr : u.RawPath = [] ∨ (ascii "/static/").isPrefixOf u.RawPath = true
    · rw [if_pos ⟨hp, hr⟩, if_pos ⟨hp, hr⟩]
      simp [trimLeading, hp, h8]
    · rw [if_neg (fun h => hr h.2), if_neg (fun h => hr h.2)]
  · rw [if_neg (fun h => hp h.1), if_neg (fun h => hp h.1)]

/-- The router in closed form, on the path it routes on. -/
theorem routeHTTP_eq (method rp : GoString) :
    setupRouter.routeHTTP method rp =
      if method ∉ methodMap then .methodNotAllowed
      else if (ascii "/static/").isPrefixOf rp = true then .handler .static
      else if rp = ascii "/" then
        (if method = ascii "GET" then .handler .index else .methodNotAllowed)
      else if rp = ascii "/run" then
        (if method = ascii "POST" then .handler .run else .methodNotAllowed)
      else .notFound := by
  by_cases hm : method ∈ methodMap
  swap
  · simp [Mux.routeHTTP, hm]
  simp only [hm, not_true_eq_false, if_false]
  by_cases hp : (ascii "/static/").isPrefixOf rp = true
  · simp only [Mux.routeHTTP, setupRouter, hm, not_true_eq_false, if_false,
      List.find?, patternMatches_static, hp, MethodSet.allows, decide_True, Bool.and_self,
      if_true]
  · simp only [hp, if_false]
    have hp' : (ascii "/static/").isPrefixOf rp = false := (Bool.not_eq_true _).mp hp
    by_cases hroot : rp = ascii "/"
    · subst hroot
      simp only [if_true, Mux.routeHTTP, setupRouter, hm, not_true_eq_false,
        if_false, List.find?, patternMatches_static, hp', Bool.false_and, patternMatches_root,
        decide_True, Bool.true_and, MethodSet.allows, patternMatches_run]
      by_cases hg : method = ascii "GET"
      · simp [hg]
      · have : (ascii "/run" = ascii "/") = False := by simp; decide
        simp [hg, this, patternMatches_root]
    · simp only [hroot, if_false]
      have hne2 : ¬ (ascii "/" = rp) := fun h => hroot h.symm
      by_cases hrun : rp = ascii "/run"
      · subst hrun
        simp only [if_true, Mux.routeHTTP, setupRouter, hm, not_true_eq_false,
          if_false, List.find?, patternMatches_static, hp', Bool.false_and, patternMatches_root,
          hne2, decide_False, MethodSet.allows, patternMatches_run, decide_True, Bool.true_and]
        by_cases hg : method = ascii "POST"
        · simp [hg]
        · simp [hg, patternMatches_run]
      · have hne3 : ¬ (ascii "/run" = rp) := fun h => hrun h.symm
        simp [Mux.routeHTTP, setupRouter, hm, List.find?, patternMatches_static, hp',
          patternMatches_root, hne2, patternMatches_run, hne3, hrun]

/-- The dispatch in closed form. -/
theorem serve_eq (method : GoString) (u : URL) :
    serve setupRouter method u =
      if method ∉ methodMap then .methodNotAllowed
      else if (ascii "/static/").isPrefixOf (routePath u) = true then
        (if (ascii "/static/").isPrefixOf u.Path = true then
          .fileServer (ascii "./static") (u.Path.drop 8)
        else .notFound)
      else if routePath u = ascii "/" then
        (if method = ascii "GET" then .index else .methodNotAllowed)
      else if routePath u = ascii "/run" then
        (if method = ascii "POST" then .run else .methodNotAllowed)
      else .notFound := by
  unfold serve
  rw [routeHTTP_eq]
  by_cases hm : method ∈ methodMap
  swap
  · simp [hm]
  simp only [hm, not_true_eq_false, if_false]
  by_cases hp : (ascii "/static/").isPrefixOf (routePath u) = true
  · simp only [hp, if_true, stripPath_static]
    by_cases hpath : (ascii "/static/").isPrefixOf u.Path = true
    · have hr : u.RawPath = [] ∨ (ascii "/static/").isPrefixOf u.RawPath = true := by
        by_cases he : u.RawPath = []
        · exact Or.inl he
        · right
          have : routePath u = u.RawPath := by simp [routePath, he]
          rw [this] at hp
          exact hp
      rw [if_pos ⟨hpath, hr⟩, if_pos hpath]
    · rw [if_neg (fun h => hpath h.1), if_neg hpath]
  · rw [if_neg hp, if_neg hp]
    by_cases hroot : routePath u = ascii "/"
    · rw [if_pos hroot, if_pos hroot]
      by_cases hg : method = ascii "GET"
      · rw [if_pos hg, if_pos hg]
      · rw [if_neg hg, if_neg hg]
    · rw [if_neg hroot, if_neg hroot]
      by_cases hrun : routePath u = ascii "/run"
      · rw [if_pos hrun, if_pos hrun]
        by_cases hg : method = ascii "POST"
        · rw [if_pos hg, if_pos hg]
        · rw [if_neg hg, if_neg hg]
      · rw [if_neg hrun, if_neg hrun]

/-- C6, refuted as stated: `POST /static/app.js` is not answered by the not-found or
method-not-allowed response: the static route is registered with `Handle`, for
every method, so the request goes to the file server.  And a `GET` whose decoded
path `/static/x` is under `/static/` but which spells it `/%73tatic/x` does not
reach the file server: chi routes on the raw path and answers not-found. -/
theorem serve_post_static :
    serve setupRouter (ascii "POST") { Path := ascii "/static/app.js", RawPath := [] }
        = .fileServer (ascii "./static") (ascii "app.js")
      ∧ serve setupRouter (ascii "GET")
          { Path := ascii "/static/x", RawPath := ascii "/%73tatic/x" } = .notFound := by
  decide

/-- C6, amended: the router built by `setupRouter` dispatches, for every method and
request URL, on the path chi routes on (the URL's `RawPath` when it is set,
otherwise its `Path`): `GET /` to the index handler; `POST /run` to the run
handler; any method that chi routes (CONNECT, DELETE, GET, HEAD, OPTIONS, PATCH,
POST, PUT, TRACE), not only GET, on any path under `/static/` to the file server
over `./static`, with the `/static/` prefix stripped from the URL's decoded
`Path` before lookup (not-found if the decoded `Path` is not under `/static/`);
and every other combination to the not-found or method-not-allowed response,
never to index, run or the file server. -/
theorem serve_setupRouter (method : GoString) (u : URL) :
    (routePath u = ascii "/" → serve setupRouter (ascii "GET") u = .index)
    ∧ (routePath u = ascii "/run" → serve setupRouter (ascii "POST") u = .run)
    ∧ (method ∈ methodMap → (ascii "/static/").isPrefixOf (routePath u) = true →
        (∀ name, u.Path = ascii "/static/" ++ name →
          serve setupRouter method u = .fileServer (ascii "./static") name)
        ∧ ((ascii "/static/").isPrefixOf u.Path = false →
          serve setupRouter method u = .notFound))
    ∧ (serve setupRouter method u = .index ↔
        method = ascii "GET" ∧ routePath u = ascii "/")
    ∧ (serve setupRouter method u = .run ↔
        method = ascii "POST" ∧ routePath u = ascii "/run")
    ∧ (∀ root name, serve setupRouter method u = .fileServer root name ↔
        method ∈ methodMap ∧ (ascii "/static/").isPrefixOf (routePath u) = true
          ∧ root = ascii "./static" ∧ u.Path = ascii "/static/" ++ name)
    ∧ (¬ (method = ascii "GET" ∧ routePath u = ascii "/")
        → ¬ (method = ascii "POST" ∧ routePath u = ascii "/run")
        → ¬ (method ∈ methodMap ∧ (ascii "/static/").isPrefixOf (routePath u) = true
              ∧ (ascii "/static/").isPrefixOf u.Path = true)
        → serve setupRouter method u = .notFound
          ∨ serve setupRouter method u = .methodNotAllowed) := by
  have h8 : (ascii "/static/").length = 8 := rfl
  have hstatic : ∀ name, method ∈ methodMap →
      (ascii "/static/").isPrefixOf (routePath u) = true →
      u.Path = ascii "/static/" ++ name →
      serve setupRouter method u = .fileServer (ascii "./static") name := by
    intro name hm hp hpath
    have hpp : (ascii "/static/").isPrefixOf u.Path = true := by
      rw [hpath]; exact isPrefixOf_append _ _
    rw [serve_eq, if_neg (not_not.mpr hm), if_pos hp, if_pos hpp, hpath, List.drop_left' h8]
  refine ⟨?_, ?_, ?_, ?_, ?_, ?_, ?_⟩
  · intro hr
    have hm : ascii "GET" ∈ methodMap := by decide
    have hp2 : ¬ (ascii "/static/").isPrefixOf (routePath u) = true := by
      rw [hr]; decide
    rw [serve_eq, if_neg (not_not.mpr hm), if_neg hp2, if_pos hr, if_pos rfl]
  · intro hr
    have hm : ascii "POST" ∈ methodMap := by decide
    have hp2 : ¬ (ascii "/static/").isPrefixOf (routePath u) = true := by
      rw [hr]; decide
    have hp3 : ¬ routePath u = ascii "/" := by
      rw [hr]; decide
    rw [serve_eq, if_neg (not_not.mpr hm), if_neg hp2, if_neg hp3, if_pos hr, if_pos rfl]
  · intro hm hp
    refine ⟨fun name hpath => hstatic name hm hp hpath, ?_⟩
    intro hn
    have hn' : ¬ (ascii "/static/").isPrefixOf u.Path = true := by
      rw [hn]; simp
    rw [serve_eq, if_neg (not_not.mpr hm), if_pos hp, if_neg hn']
  · rw [serve_eq]
    constructor
    · intro h
      split_ifs at h with h1 h2 h3 h4 h5 h6 h7
      · exact ⟨h5, h4⟩
    · rintro ⟨rfl, hp⟩
      have hm : ascii "GET" ∈ methodMap := by decide
      have hp2 : ¬ (ascii "/static/").isPrefixOf (routePath u) = true := by
        rw [hp]; decide
      rw [if_neg (not_not.mpr hm), if_neg hp2, if_pos hp, if_pos rfl]
  · rw [serve_eq]
    constructor
    · intro h
      split_ifs at h with h1 h2 h3 h4 h5 h6 h7
      · exact ⟨h7, h6⟩
    · rintro ⟨rfl, hp⟩
      have hm : ascii "POST" ∈ methodMap := by decide
      have hp2 : ¬ (ascii "/static/").isPrefixOf (routePath u) = true := by
        rw [hp]; decide
      have hp3 : ¬ routePath u = ascii "/" := by
        rw [hp]; decide
      rw [if_neg (not_not.mpr hm), if_neg hp2, if_neg hp3, if_pos hp, if_pos rfl]
  · intro root name
    constructor
    · intro h
      rw [serve_eq] at h
      split_ifs at h with h1 h2 h3 h4 h5 h6 h7
      · simp only [Dispatch.fileServer.injEq] at h
        refine ⟨h1, h2, h.1.symm, ?_⟩
        have := eq_append_of_isPrefixOf _ _ h3
        rw [h8, h.2] at this
        exact this
    · rintro ⟨hm, hp, rfl, hpath⟩
      exact hstatic name hm hp hpath
  · intro n1 n2 n3
    rw [serve_eq]
    by_cases hm : method ∈ methodMap
    · rw [if_neg (not_not.mpr hm)]
      by_cases hp : (ascii "/static/").isPrefixOf (routePath u) = true
      · rw [if_pos hp]
        by_cases hpp : (ascii "/static/").isPrefixOf u.Path = true
        · exact absurd ⟨hm, hp, hpp⟩ n3
        · rw [if_neg hpp]; exact Or.inl rfl
      · rw [if_neg hp]
        by_cases hr : routePath u = ascii "/"
        · rw [if_pos hr]
          by_cases hg : method = ascii "GET"
          · exact absurd ⟨hg, hr⟩ n1
          · rw [if_neg hg]; exact Or.inr rfl
        · rw [if_neg hr]
          by_cases hrun : routePath u = ascii "/run"
          · rw [if_pos hrun]
            by_cases hg : method = ascii "POST"
            · exact absurd ⟨hg, hrun⟩ n2
            · rw [if_neg hg]; exact Or.inr rfl
          · rw [if_neg hrun]; exact Or.inl rfl
    · rw [if_pos hm]; exact Or.inr rfl

/-- Witness of C6 as amended: `HEAD /static/css/app.css` goes to the file server,
which looks up `css/app.css`; `GET /static/a%2Fb`, routed on its raw path, is
looked up under the decoded name `a/b`; a request with an empty path reaches
no handler. -/
theorem serve_setupRouter_witness :
    serve setupRouter (ascii "HEAD")
        { Path := ascii "/static/" ++ ascii "css/app.css", RawPath := [] }
        = .fileServer (ascii "./static") (ascii "css/app.css")
      ∧ serve setupRouter (ascii "GET")
        { Path := ascii "/static/" ++ ascii "a/b", RawPath := ascii "/static/a%2Fb" }
        = .fileServer (ascii "./static") (ascii "a/b")
      ∧ (serve setupRouter (ascii "GET") { Path := [], RawPath := [] } = .notFound
          ∨ serve setupRouter (ascii "GET") { Path := [], RawPath := [] }
            = .methodNotAllowed) :=
  ⟨((serve_setupRouter (ascii "HEAD")
      { Path := ascii "/static/" ++ ascii "css/app.css", RawPath := [] }).2.2.1
      (by decide) (by decide)).1 (ascii "css/app.css") rfl,
    ((serve_setupRouter (ascii "GET")
      { Path := ascii "/static/" ++ ascii "a/b", RawPath := ascii "/static/a%2Fb" }).2.2.1
      (by decide) (by decide)).1 (ascii "a/b") rfl,
    (serve_setupRouter (ascii "GET") { Path := [], RawPath := [] }).2.2.2.2.2.2
      (by decide) (by decide) (by decide)⟩
/-! ## `main` and the lifecycle -/

/-- C7: for every value of the `PORT` environment variable, the server's listen
address is `:` followed by the value when it is non-empty (and nothing is
logged), and is `:8080`, with the warning logged, when `PORT` is unset or
empty. -/
theorem main_addr (env : GoString → Option GoString) :
    (∀ p, env (ascii "PORT") = some p → p ≠ [] →
        (main env).1.Addr = ascii ":" ++ p ∧ (main env).2 = [])
    ∧ ((env (ascii "PORT") = none ∨ env (ascii "PORT") = some []) →
        (main env).1.Addr = ascii ":8080"
          ∧ (main env).2
            = [ascii "Warning: PORT environment variable not set. Defaulting to 8080"]) := by
  constructor
  · intro p hp hne
    simp [main, Getenv, hp, hne]
  · intro h
    have hg : Getenv env (ascii "PORT") = [] := by
      rcases h with h | h <;> simp [Getenv, h]
    have e : main env = ({ Addr := ascii ":8080", Handler := setupRouter },
        [ascii "Warning: PORT environment variable not set. Defaulting to 8080"]) := by
      simp only [main, hg, if_true]
      rfl
    rw [e]
    exact ⟨rfl, rfl⟩

/-- Witness of C7: `PORT=3000` gives `:3000`, no `PORT` gives `:8080`. -/
theorem main_addr_witness :
    (main (fun key => if key = ascii "PORT" then some (ascii "3000") else none)).1.Addr
        = ascii ":3000"
      ∧ (main (fun _ => none)).1.Addr = ascii ":8080" :=
  ⟨((main_addr (fun key => if key = ascii "PORT" then some (ascii "3000") else none)).1
      (ascii "3000") rfl (by decide)).1,
    ((main_addr (fun _ => none)).2 (Or.inl rfl)).1⟩

theorem afterHandler_cases (p : Process) (o : Outcome) :
    afterHandler p o = p
      ∨ ((afterHandler p o).phase = .Stopped ∧ (afterHandler p o).accepting = false
          ∧ (afterHandler p o).shutdownCalls = p.shutdownCalls
          ∧ (afterHandler p o).accepted = p.accepted) := by
  unfold afterHandler
  cases o.exit with
  | returned => exact Or.inl rfl
  | fatal msg => exact Or.inr ⟨rfl, rfl, rfl, rfl⟩

theorem step_request_cases (a : Assets) (be : Backend) (p : Process)
    (method path body : GoString) :
    step a be p (.request method path body) = p
      ∨ (p.phase = .Listening
          ∧ ((step a be p (.request method path body)).phase = .Listening
              ∨ (step a be p (.request method path body)).phase = .Stopped)
          ∧ (step a be p (.request method path body)).shutdownCalls = p.shutdownCalls) := by
  simp only [step]
  split_ifs with h
  · right
    refine ⟨h.1, ?_⟩
    split
    · rcases afterHandler_cases { p with accepted := p.accepted + 1 } (index a .fresh) with e | e
      · rw [e]; exact ⟨Or.inl h.1, rfl⟩
      · exact ⟨Or.inr e.1, e.2.2.1⟩
    · rcases afterHandler_cases { p with accepted := p.accepted + 1 } (run be .fresh body) with e | e
      · rw [e]; exact ⟨Or.inl h.1, rfl⟩
      · exact ⟨Or.inr e.1, e.2.2.1⟩
    · exact ⟨Or.inl h.1, rfl⟩
  · exact Or.inl rfl

theorem step_signal (a : Assets) (be : Backend) (p : Process) (sig : Signal) :
    step a be p (.signal sig)
      = if (p.phase = .Starting ∨ p.phase = .Listening) ∧ sig ∈ notified then gracefulShutdown p
        else p := by
  cases hp : p.phase <;> simp [step, hp]

theorem step_enters_shutdown (a : Assets) (be : Backend) (p : Process) (ev : Event)
    (h0 : p.phase ≠ .ShuttingDown) (h1 : (step a be p ev).phase = .ShuttingDown) :
    (ev = .signal SIGINT ∨ ev = .signal SIGTERM)
      ∧ (step a be p ev).shutdownCalls = p.shutdownCalls ++ [30 * Second]
      ∧ (step a be p ev).accepting = false := by
  cases ev with
  | listen ok =>
    cases hp : p.phase <;> simp only [step, hp] at h1
    all_goals first
      | exact absurd hp h0
      | cases h1
      | split_ifs at h1
  | signal sig =>
    rw [step_signal] at h1 ⊢
    split_ifs at h1 ⊢ with hs
    · have hm := hs.2
      simp only [notified, List.mem_cons, List.mem_singleton, List.not_mem_nil, or_false] at hm
      refine ⟨?_, rfl, rfl⟩
      rcases hm with rfl | rfl
      · exact Or.inl rfl
      · exact Or.inr rfl
    · exact absurd h1 h0
  | request method path body =>
    rcases step_request_cases a be p method path body with e | ⟨-, e, -⟩
    · rw [e] at h1; exact absurd h1 h0
    · rcases e with e | e <;> rw [e] at h1 <;> cases h1
  | shutdownReturned drained =>
    cases hp : p.phase <;> simp only [step, hp] at h1
    all_goals first
      | exact absurd hp h0
      | cases h1

theorem step_of_late (a : Assets) (be : Backend) (p : Process) (ev : Event)
    (h : p.phase = .ShuttingDown ∨ p.phase = .Stopped) :
    ((step a be p ev).phase = .ShuttingDown ∨ (step a be p ev).phase = .Stopped)
      ∧ (step a be p ev).accepted = p.accepted
      ∧ (step a be p ev).shutdownCalls = p.shutdownCalls
      ∧ ((step a be p ev).phase = .ShuttingDown → (step a be p ev).accepting = p.accepting) := by
  cases ev with
  | listen ok => rcases h with h | h <;> simp [step, h]
  | signal sig => rcases h with h | h <;> simp [step, h]
  | request method path body => rcases h with h | h <;> simp [step, h]
  | shutdownReturned drained => rcases h with h | h <;> simp [step, h]

theorem exec_of_late (a : Assets) (be : Backend) (evs : List Event) : ∀ (p : Process),
    (p.phase = .ShuttingDown ∨ p.phase = .Stopped) →
    ((exec a be p evs).phase = .ShuttingDown ∨ (exec a be p evs).phase = .Stopped)
      ∧ (exec a be p evs).accepted = p.accepted
      ∧ (exec a be p evs).shutdownCalls = p.shutdownCalls := by
  induction evs with
  | nil => intro p h; exact ⟨h, rfl, rfl⟩
  | cons ev evs ih =>
    intro p h
    obtain ⟨h1, h2, h3, -⟩ := step_of_late a be p ev h
    obtain ⟨k1, k2, k3⟩ := ih (step a be p ev) h1
    simp only [exec, List.foldl_cons] at k1 k2 k3 ⊢
    exact ⟨k1, k2.trans h2, k3.trans h3⟩

theorem step_inv (a : Assets) (be : Backend) (p : Process) (ev : Event) (h : LifecycleInv p) :
    LifecycleInv (step a be p ev) := by
  obtain ⟨i1, i2, i3⟩ := h
  by_cases hl : p.phase = .ShuttingDown ∨ p.phase = .Stopped
  · obtain ⟨h1, -, h3, h4⟩ := step_of_late a be p ev hl
    refine ⟨?_, ?_, ?_⟩
    · intro hq; rcases hq with hq | hq <;> rcases h1 with h1 | h1 <;> rw [h1] at hq <;> cases hq
    · intro hq
      have hp : p.phase = .ShuttingDown := by
        rcases hl with hl | hl
        · exact hl
        · have := (step_of_late a be p ev (Or.inr hl))
          cases ev <;> simp [step, hl] at hq
      rw [h3, h4 hq]
      exact i2 hp
    · rw [h3]; exact i3
  · have hsl : p.phase = .Starting ∨ p.phase = .Listening := by
      cases hp : p.phase <;> simp [hp] at hl ⊢
    have hcalls := i1 hsl
    have hnot : p.phase ≠ .ShuttingDown := fun hq => hl (Or.inl hq)
    by_cases hq : (step a be p ev).phase = .ShuttingDown
    · obtain ⟨-, k2, k3⟩ := step_enters_shutdown a be p ev hnot hq
      rw [hcalls] at k2
      refine ⟨?_, ?_, ?_⟩
      · intro hx; rcases hx with hx | hx <;> rw [hq] at hx <;> cases hx
      · intro _; exact ⟨k2, k3⟩
      · exact Or.inr k2
    · have hsame : (step a be p ev).shutdownCalls = [] := by
        cases ev with
        | listen ok =>
          cases hp : p.phase <;> simp only [step, hp]
          · split_ifs <;> exact hcalls
          all_goals exact hcalls
        | signal sig =>
          rw [step_signal] at hq ⊢
          split_ifs at hq ⊢
          · exact absurd rfl hq
          · exact hcalls
        | request method path body =>
          rcases step_request_cases a be p method path body with e | ⟨-, -, e⟩
          · rw [e]; exact hcalls
          · rw [e]; exact hcalls
        | shutdownReturned drained =>
          cases hp : p.phase <;> simp only [step, hp] <;> exact hcalls
      exact ⟨fun _ => hsame, fun hx => absurd hx hq, Or.inl hsame⟩

theorem exec_inv (a : Assets) (be : Backend) (evs : List Event) : ∀ (p : Process),
    LifecycleInv p → LifecycleInv (exec a be p evs) := by
  induction evs with
  | nil => intro p h; exact h
  | cons ev evs ih =>
    intro p h
    simp only [exec, List.foldl_cons]
    exact ih _ (step_inv a be p ev h)

theorem start_inv : LifecycleInv .start :=
  ⟨fun _ => rfl, fun h => by simp [Process.start] at h, Or.inl rfl⟩

theorem exec_append (a : Assets) (be : Backend) (p : Process) (e1 e2 : List Event) :
    exec a be p (e1 ++ e2) = exec a be (exec a be p e1) e2 := by
  simp [exec, List.foldl_append]

/-- C8: in the server lifecycle, ShuttingDown is entered only on receipt of SIGINT
or SIGTERM, and either one suffices; on entry `gracefulShutdown` calls the
server's `Shutdown` with a deadline of exactly 30 seconds, exactly once in the
whole run; from then on no new connection is accepted; and when `Shutdown`
returns the process goes to the terminal state Stopped, whether the in-flight
requests finished in time or not. -/
theorem lifecycle_shutdown (a : Assets) (be : Backend) :
    (∀ p ev, p.phase ≠ .ShuttingDown → (step a be p ev).phase = .ShuttingDown →
        ev = .signal SIGINT ∨ ev = .signal SIGTERM)
    ∧ (∀ p sig, p.phase = .Listening → (sig = SIGINT ∨ sig = SIGTERM) →
        (step a be p (.signal sig)).phase = .ShuttingDown
          ∧ (step a be p (.signal sig)).shutdownCalls = p.shutdownCalls ++ [30 * 1000000000]
          ∧ (step a be p (.signal sig)).accepting = false)
    ∧ (∀ evs, ((exec a be .start evs).phase = .ShuttingDown →
          (exec a be .start evs).shutdownCalls = [30 * 1000000000])
        ∧ (exec a be .start evs).shutdownCalls.length ≤ 1)
    ∧ (∀ evs later, (exec a be .start evs).phase = .ShuttingDown →
        (exec a be .start evs).accepting = false
          ∧ (exec a be .start (evs ++ later)).accepted = (exec a be .start evs).accepted
          ∧ (exec a be .start (evs ++ later)).shutdownCalls = [30 * 1000000000])
    ∧ (∀ p drained, p.phase = .ShuttingDown →
        (step a be p (.shutdownReturned drained)).phase = .Stopped)
    ∧ (∀ p ev, p.phase = .Stopped → (step a be p ev).phase = .Stopped) := by
  refine ⟨?_, ?_, ?_, ?_, ?_, ?_⟩
  · intro p ev h0 h1
    exact (step_enters_shutdown a be p ev h0 h1).1
  · intro p sig hp hs
    have hmem : sig ∈ notified := by
      rcases hs with rfl | rfl <;> decide
    rw [step_signal, if_pos ⟨Or.inr hp, hmem⟩]
    exact ⟨rfl, rfl, rfl⟩
  · intro evs
    obtain ⟨-, i2, i3⟩ := exec_inv a be evs .start start_inv
    constructor
    · intro h; exact (i2 h).1
    · rcases i3 with h | h <;> rw [h] <;> simp
  · intro evs later h
    obtain ⟨-, i2, -⟩ := exec_inv a be evs .start start_inv
    obtain ⟨-, k2, k3⟩ := exec_of_late a be later (exec a be .start evs) (Or.inl h)
    rw [exec_append]
    exact ⟨(i2 h).2, k2, k3.trans (i2 h).1⟩
  · intro p drained hp
    simp only [step, hp]
  · intro p ev hp
    cases ev <;> simp [step, hp]

/-- Witness of C8: the server listens, serves a request, receives SIGTERM, is asked
for another connection, and `Shutdown` returns after the deadline: the process
was shutting down after the signal, `Shutdown` was called once with 30 seconds,
one connection was accepted in all, and the process is stopped. -/
theorem lifecycle_shutdown_witness :
    (exec noAssets (stubBackend (ascii "hi there")) .start
        [.listen true, .request (ascii "POST") (ascii "/run") (ascii "\x7b\"input\":\"hello\"\x7d"),
         .signal SIGTERM]).phase = .ShuttingDown
      ∧ (exec noAssets (stubBackend (ascii "hi there")) .start
        ([.listen true, .request (ascii "POST") (ascii "/run") (ascii "\x7b\"input\":\"hello\"\x7d"),
         .signal SIGTERM] ++ [.request (ascii "GET") (ascii "/") [],
          .shutdownReturned false])).accepted = 1
      ∧ (exec noAssets (stubBackend (ascii "hi there")) .start
        ([.listen true, .request (ascii "POST") (ascii "/run") (ascii "\x7b\"input\":\"hello\"\x7d"),
         .signal SIGTERM] ++ [.request (ascii "GET") (ascii "/") [],
          .shutdownReturned false])).shutdownCalls = [30 * 1000000000]
      ∧ (exec noAssets (stubBackend (ascii "hi there")) .start
        ([.listen true, .request (ascii "POST") (ascii "/run") (ascii "\x7b\"input\":\"hello\"\x7d"),
         .signal SIGTERM] ++ [.request (ascii "GET") (ascii "/") [],
          .shutdownReturned false])).phase = .Stopped :=
  have h := (lifecycle_shutdown noAssets (stubBackend (ascii "hi there"))).2.2.2.1
    [.listen true, .request (ascii "POST") (ascii "/run") (ascii "\x7b\"input\":\"hello\"\x7d"),
      .signal SIGTERM]
    [.request (ascii "GET") (ascii "/") [], .shutdownReturned false] rfl
  ⟨rfl, h.2.1.trans rfl, h.2.2, rfl⟩

end ChatClone
